import Mathlib

/-!
# Verification of the watchdog-eve offer reconciliation scripts

A shallow embedding of the Python sources of the `Toddgm/watchdog-eve`
repository (`funpay_scraper_local.py`, `funpay_scraper_v3.py`,
`funpay_scraper_simplified.py`) together with proofs about them.

Modelling conventions:
* Python `dict`s keyed by offer id are association lists
  `List (String × α)`; `alookup` is `dict.get` / `in`, and `aupd` is
  `d[k] = v` (replacing in place when the key exists, appending otherwise,
  as insertion-ordered CPython dicts do).
* Python floats (prices, percentages, extracted SP values) are modelled as
  rationals `ℚ`; the scripts only compare, subtract, divide and take
  absolute values, so the order-field structure is all that is used.
* `None` is `Option.none`.  A scraped offer dict always carries the
  `price_usd` key (possibly with value `None`), which the model reflects by
  an `Option ℚ` field.
* Timestamps (ISO strings in the scripts) are opaque `String`s.
-/

namespace Watchdog

/-! ## Association-list primitives (Python dict operations) -/

/-- `alookup k m` is Python `m.get(k)` / `m[k]` on an insertion-ordered dict
modelled as an association list. -/
def alookup {α : Type} (k : String) : List (String × α) → Option α
  | [] => none
  | (a, b) :: t => if a = k then some b else alookup k t

@[simp] theorem alookup_nil {α : Type} (k : String) :
    alookup k ([] : List (String × α)) = none := rfl

@[simp] theorem alookup_cons {α : Type} (k a : String) (b : α) (t : List (String × α)) :
    alookup k ((a, b) :: t) = if a = k then some b else alookup k t := rfl

/-- `aupd m k v` is Python `m[k] = v`: replace in place when the key is
present, append otherwise. -/
def aupd {α : Type} (m : List (String × α)) (k : String) (v : α) :
    List (String × α) :=
  if (alookup k m).isSome then
    m.map (fun p => if p.1 = k then (k, v) else p)
  else
    m ++ [(k, v)]

theorem alookup_mem {α : Type} {m : List (String × α)} {k : String} {v : α}
    (h : alookup k m = some v) : (k, v) ∈ m := by
  induction m with
  | nil => simp at h
  | cons p t ih =>
    obtain ⟨a, b⟩ := p
    by_cases hk : a = k
    · subst hk
      rw [alookup_cons, if_pos rfl] at h
      obtain rfl : b = v := Option.some.inj h
      exact List.mem_cons_self _ _
    · simp only [alookup_cons, if_neg hk] at h
      exact List.mem_cons_of_mem _ (ih h)

theorem alookup_eq_none_iff {α : Type} (m : List (String × α)) (k : String) :
    alookup k m = none ↔ k ∉ m.map Prod.fst := by
  induction m with
  | nil => simp
  | cons p t ih =>
    obtain ⟨a, b⟩ := p
    by_cases hk : a = k
    · simp [hk]
    · have hka : ¬ k = a := fun h => hk h.symm
      rw [alookup_cons, if_neg hk, ih, List.map_cons, List.mem_cons, not_or]
      simp [hka]

theorem alookup_isSome_iff {α : Type} (m : List (String × α)) (k : String) :
    (alookup k m).isSome = true ↔ k ∈ m.map Prod.fst := by
  rw [← not_iff_not, ← alookup_eq_none_iff m k]
  cases alookup k m <;> simp

theorem alookup_append {α : Type} (m₁ m₂ : List (String × α)) (k : String) :
    alookup k (m₁ ++ m₂) =
      match alookup k m₁ with
      | some v => some v
      | none => alookup k m₂ := by
  induction m₁ with
  | nil => simp
  | cons p t ih =>
    obtain ⟨a, b⟩ := p
    by_cases hk : a = k <;> simp [hk, ih]

/-- Lookup after the in-place replacement `m.map (fun p => if p.1 = k then (k, v) else p)`
at the replaced key. -/
theorem alookup_replace_self {α : Type} {m : List (String × α)} {k : String} (v : α)
    (h : (alookup k m).isSome) :
    alookup k (m.map (fun p => if p.1 = k then (k, v) else p)) = some v := by
  induction m with
  | nil => simp at h
  | cons p t ih =>
    obtain ⟨a, b⟩ := p
    by_cases hk : a = k
    · simp [hk]
    · simp only [alookup_cons, if_neg hk] at h
      simp [hk, ih h]

/-- Lookup after the in-place replacement at any other key. -/
theorem alookup_replace_ne {α : Type} (m : List (String × α)) (k k' : String) (v : α)
    (hne : k' ≠ k) :
    alookup k' (m.map (fun p => if p.1 = k then (k, v) else p)) = alookup k' m := by
  induction m with
  | nil => simp
  | cons p t ih =>
    obtain ⟨a, b⟩ := p
    by_cases hk : a = k
    · have hkk : ¬ k = k' := fun h => hne h.symm
      simp [hk, hkk, ih]
    · simp [hk, ih]

theorem alookup_aupd_self {α : Type} (m : List (String × α)) (k : String) (v : α) :
    alookup k (aupd m k v) = some v := by
  unfold aupd
  by_cases h : (alookup k m).isSome
  · rw [if_pos h]
    exact alookup_replace_self v h
  · rw [if_neg h]
    have hn : alookup k m = none := by
      cases hm : alookup k m
      · rfl
      · rw [hm] at h; simp at h
    rw [alookup_append, hn]
    simp

theorem alookup_aupd_ne {α : Type} (m : List (String × α)) (k k' : String) (v : α)
    (hne : k' ≠ k) : alookup k' (aupd m k v) = alookup k' m := by
  unfold aupd
  by_cases h : (alookup k m).isSome
  · rw [if_pos h]
    exact alookup_replace_ne m k k' v hne
  · rw [if_neg h, alookup_append]
    have hkk : ¬ k = k' := fun hh => hne hh.symm
    cases hm : alookup k' m <;> simp [hkk]

theorem aupd_keys_of_mem {α : Type} (m : List (String × α)) (k : String) (v : α)
    (h : (alookup k m).isSome) : (aupd m k v).map Prod.fst = m.map Prod.fst := by
  unfold aupd
  rw [if_pos h, List.map_map]
  apply List.map_congr_left
  intro p _
  obtain ⟨a, b⟩ := p
  by_cases hk : a = k
  · simp [Function.comp, hk]
  · simp [Function.comp, hk]

/-! ## Data model

`ScrapedOffer` is the dict built per listing by `scrape_all_offers_details`
(funpay_scraper_local.py lines 277-286): it has exactly the keys
`id, description, seller, price_usd, price_text, sp_million, href`.
`Entry` is a persisted-state dict of `funpay_scraper_local.py` after
`load_offer_state` has applied its `setdefault`s (lines 73-80): the same
keys plus `last_seen_active` and `notified_as_removed_at`. -/

structure ScrapedOffer where
  id : String
  description : String
  seller : String
  price_usd : Option ℚ
  price_text : String
  sp_million : Option ℚ
  href : String
deriving DecidableEq

structure Entry where
  id : String
  description : String
  seller : String
  price_usd : Option ℚ
  price_text : String
  sp_million : Option ℚ
  href : String
  last_seen_active : Option String
  notified_as_removed_at : Option String
deriving DecidableEq

/-- Lines 464-470 of funpay_scraper_local.py: the scraped dict gets
`last_seen_active = current_iso_timestamp`, and the copy used for the next
state gets `setdefault('notified_as_removed_at', None)` — the scrape dict
never has that key, so the result is always `None`. -/
def ScrapedOffer.toEntry (o : ScrapedOffer) (ts : String) : Entry :=
  { id := o.id
    description := o.description
    seller := o.seller
    price_usd := o.price_usd
    price_text := o.price_text
    sp_million := o.sp_million
    href := o.href
    last_seen_active := some ts
    notified_as_removed_at := none }

/-- A `discounted_offers_notify` element (funpay_scraper_local.py lines
500-503): a copy of the scraped dict with `last_price` and
`discount_percent` added. -/
structure DiscountedOffer where
  offer : Entry
  last_price : ℚ
  discount_percent : ℚ
deriving DecidableEq

/-- `PRICE_CHANGE_PERCENT_THRESHOLD = 5.0` (funpay_scraper_local.py line 28,
funpay_scraper_v3.py line 29). -/
def PRICE_CHANGE_PERCENT_THRESHOLD : ℚ := 5

/-- Python's built-in `abs()` on a rational, written out so that it computes
by kernel reduction. -/
def pyAbs (q : ℚ) : ℚ := if q < 0 then -q else q

theorem pyAbs_eq_abs (q : ℚ) : pyAbs q = |q| := by
  unfold pyAbs
  rcases lt_or_ge q 0 with h | h
  · rw [if_pos h, abs_of_neg h]
  · rw [if_neg (not_lt.mpr h), abs_of_nonneg h]

/-! ## The enriched-state reconciliation (funpay_scraper_local.py `__main__`) -/

/-- One iteration of the comparison loop (funpay_scraper_local.py lines
462-513) for offer `offer_id` with scraped details `cur`: returns the
entries appended to `new_offers_notify`, the entries appended to
`discounted_offers_notify`, and `details_for_next_state`. -/
def processCurrentOffer (ts : String) (previous : List (String × Entry))
    (offer_id : String) (cur : ScrapedOffer) :
    List Entry × List DiscountedOffer × Entry :=
  let curE := cur.toEntry ts
  match alookup offer_id previous with
  | none =>
    -- Case 1 (lines 475-479): truly new offer.
    ([curE], [], curE)
  | some last_known_details =>
    -- Case 2 (lines 480-512): offer was known.
    -- Reappearance (lines 483-489): reset flag (already none in curE) and
    -- notify as new.
    let reappeared : List Entry :=
      if last_known_details.notified_as_removed_at ≠ none then [curE] else []
    match cur.price_usd, last_known_details.price_usd with
    | some current_price, some last_price =>
      if last_price > 0 then
        let price_diff_abs := current_price - last_price
        if price_diff_abs < 0 then
          let percent_decrease := pyAbs (price_diff_abs / last_price) * 100
          if percent_decrease > PRICE_CHANGE_PERCENT_THRESHOLD then
            -- Lines 499-504: notify the discount; state keeps current price.
            (reappeared, [⟨curE, last_price, percent_decrease⟩], curE)
          else
            -- Lines 505-507: below threshold — keep the OLD price in state.
            (reappeared, [], { curE with price_usd := some last_price })
        else (reappeared, [], curE)
      else (reappeared, [], curE)
    | some _, none =>
      -- Lines 508-510: price newly available — notify as new.
      (reappeared ++ [curE], [], curE)
    | none, some _ =>
      -- Lines 511-512: price became unavailable — log only.
      (reappeared, [], curE)
    | none, none => (reappeared, [], curE)

structure CompareAcc where
  new_offers : List Entry
  discounted : List DiscountedOffer
  next_state : List (String × Entry)
  scraped_ids : List String
deriving DecidableEq

def compareStep (ts : String) (previous : List (String × Entry))
    (acc : CompareAcc) (kv : String × ScrapedOffer) : CompareAcc :=
  let r := processCurrentOffer ts previous kv.1 kv.2
  { new_offers := acc.new_offers ++ r.1
    discounted := acc.discounted ++ r.2.1
    next_state := aupd acc.next_state kv.1 r.2.2
    scraped_ids := acc.scraped_ids ++ [kv.1] }

structure RemovedAcc where
  removed : List Entry
  next_state : List (String × Entry)
deriving DecidableEq

/-- One iteration of the removed-offer loop (funpay_scraper_local.py lines
521-539).  The script appends `next_offer_state[offer_id]` to the notify
list and then sets `notified_as_removed_at` on the same dict object, so the
appended entry carries the updated marker. -/
def removedStep (ts : String) (acc : RemovedAcc) (offer_id : String) : RemovedAcc :=
  match alookup offer_id acc.next_state with
  | some e =>
    if e.notified_as_removed_at = none then
      let e' := { e with notified_as_removed_at := some ts }
      { removed := acc.removed ++ [e'], next_state := aupd acc.next_state offer_id e' }
    else acc
  | none => acc

structure LocalResult where
  new_offers : List Entry
  discounted : List DiscountedOffer
  removed : List Entry
  next_state : List (String × Entry)
deriving DecidableEq

/-- Steps 3 of `__main__` in funpay_scraper_local.py (lines 453-539): build
the notification lists and `next_offer_state` from the current scrape and
the loaded previous state.  The removed-offer loop iterates a Python set
difference whose order is unspecified; the model iterates previous-state
order (the per-key updates are independent, so only the pre-sort order of
`removed_offers_notify` depends on this choice). -/
def reconcileLocal (ts : String) (current : List (String × ScrapedOffer))
    (previous : List (String × Entry)) : LocalResult :=
  let c := current.foldl (compareStep ts previous)
    { new_offers := [], discounted := [], next_state := previous, scraped_ids := [] }
  let removed_ids :=
    (previous.map Prod.fst).filter (fun k => ¬ c.scraped_ids.contains k)
  let r := removed_ids.foldl (removedStep ts) { removed := [], next_state := c.next_state }
  { new_offers := c.new_offers
    discounted := c.discounted
    removed := r.removed
    next_state := r.next_state }

/-! ### Characterization of the comparison loop -/

theorem compare_foldl_new (ts : String) (previous : List (String × Entry))
    (l : List (String × ScrapedOffer)) (acc : CompareAcc) :
    (l.foldl (compareStep ts previous) acc).new_offers =
      acc.new_offers ++ l.flatMap (fun kv => (processCurrentOffer ts previous kv.1 kv.2).1) := by
  induction l generalizing acc with
  | nil => simp
  | cons kv t ih => simp [compareStep, ih, List.flatMap_cons]

theorem compare_foldl_disc (ts : String) (previous : List (String × Entry))
    (l : List (String × ScrapedOffer)) (acc : CompareAcc) :
    (l.foldl (compareStep ts previous) acc).discounted =
      acc.discounted ++ l.flatMap (fun kv => (processCurrentOffer ts previous kv.1 kv.2).2.1) := by
  induction l generalizing acc with
  | nil => simp
  | cons kv t ih => simp [compareStep, ih, List.flatMap_cons]

theorem compare_foldl_ids (ts : String) (previous : List (String × Entry))
    (l : List (String × ScrapedOffer)) (acc : CompareAcc) :
    (l.foldl (compareStep ts previous) acc).scraped_ids =
      acc.scraped_ids ++ l.map Prod.fst := by
  induction l generalizing acc with
  | nil => simp
  | cons kv t ih => simp [compareStep, ih]

/-- After the comparison loop, the next-state entry of a key is determined by
its (unique) occurrence in the scrape: the key's `details_for_next_state` if
scraped, its entry in the loop's starting state otherwise. -/
theorem compare_foldl_next (ts : String) (previous : List (String × Entry))
    (l : List (String × ScrapedOffer)) (acc : CompareAcc) (k : String)
    (hnd : (l.map Prod.fst).Nodup) :
    alookup k (l.foldl (compareStep ts previous) acc).next_state =
      match alookup k l with
      | some cur => some (processCurrentOffer ts previous k cur).2.2
      | none => alookup k acc.next_state := by
  induction l generalizing acc with
  | nil => simp
  | cons kv t ih =>
    obtain ⟨k0, cur0⟩ := kv
    simp only [List.map_cons, List.nodup_cons] at hnd
    by_cases hk : k0 = k
    · subst hk
      have ht : alookup k0 t = none := by
        rw [alookup_eq_none_iff]
        exact hnd.1
      rw [List.foldl_cons, ih _ hnd.2, ht]
      simp [compareStep, alookup_aupd_self]
    · rw [List.foldl_cons, ih _ hnd.2]
      have hck : alookup k ((k0, cur0) :: t) = alookup k t := by simp [hk]
      rw [hck]
      cases htk : alookup k t with
      | none =>
        simp only [htk]
        simp [compareStep, alookup_aupd_ne _ _ _ _ (fun h : k = k0 => hk h.symm)]
      | some cur => simp [htk]

/-! ### Characterization of the removed-offer loop -/

/-- What the removed-offer loop does to one entry. -/
def markRemoved (ts : String) (e : Entry) : Entry :=
  if e.notified_as_removed_at = none then { e with notified_as_removed_at := some ts } else e

theorem removed_foldl_next (ts : String) (ids : List String) (acc : RemovedAcc)
    (k : String) (hnd : ids.Nodup) :
    alookup k (ids.foldl (removedStep ts) acc).next_state =
      if k ∈ ids then (alookup k acc.next_state).map (markRemoved ts)
      else alookup k acc.next_state := by
  induction ids generalizing acc with
  | nil => simp
  | cons i t ih =>
    simp only [List.nodup_cons] at hnd
    rw [List.foldl_cons, ih _ hnd.2]
    by_cases hk : k = i
    · subst hk
      have hkt : k ∉ t := hnd.1
      simp only [hkt, if_neg, not_false_iff, List.mem_cons, true_or, if_pos]
      unfold removedStep
      cases he : alookup k acc.next_state with
      | none => simp [he]
      | some e =>
        by_cases hm : e.notified_as_removed_at = none
        · simp only [he, hm, if_pos]
          rw [alookup_aupd_self]
          simp [markRemoved, hm]
        · simp only [he, hm, if_neg, not_false_iff]
          simp [he, markRemoved, hm]
    · have hstep : alookup k (removedStep ts acc i).next_state = alookup k acc.next_state := by
        unfold removedStep
        cases he : alookup i acc.next_state with
        | none => rfl
        | some e =>
          by_cases hm : e.notified_as_removed_at = none
          · simp only [hm, if_pos]
            exact alookup_aupd_ne _ _ _ _ hk
          · simp [hm]
      rw [hstep]
      simp [List.mem_cons, hk]

theorem removed_foldl_list (ts : String) (ids : List String) (acc : RemovedAcc)
    (hnd : ids.Nodup) :
    (ids.foldl (removedStep ts) acc).removed =
      acc.removed ++ ids.filterMap (fun k =>
        match alookup k acc.next_state with
        | some e => if e.notified_as_removed_at = none
            then some { e with notified_as_removed_at := some ts } else none
        | none => none) := by
  induction ids generalizing acc with
  | nil => simp
  | cons i t ih =>
    simp only [List.nodup_cons] at hnd
    rw [List.foldl_cons, ih _ hnd.2, List.filterMap_cons]
    have hnext : ∀ k ∈ t, alookup k (removedStep ts acc i).next_state
        = alookup k acc.next_state := by
      intro k hkt
      have hk : k ≠ i := fun h => hnd.1 (h ▸ hkt)
      unfold removedStep
      cases he : alookup i acc.next_state with
      | none => rfl
      | some e =>
        by_cases hm : e.notified_as_removed_at = none
        · simp only [hm, if_pos]
          exact alookup_aupd_ne _ _ _ _ hk
        · simp [hm]
    have hcongr : t.filterMap (fun k =>
        match alookup k (removedStep ts acc i).next_state with
        | some e => if e.notified_as_removed_at = none
            then some { e with notified_as_removed_at := some ts } else none
        | none => none) =
        t.filterMap (fun k =>
        match alookup k acc.next_state with
        | some e => if e.notified_as_removed_at = none
            then some { e with notified_as_removed_at := some ts } else none
        | none => none) := by
      apply List.filterMap_congr
      intro k hkt
      rw [hnext k hkt]
    rw [hcongr]
    cases he : alookup i acc.next_state with
    | none => simp [removedStep, he]
    | some e =>
      by_cases hm : e.notified_as_removed_at = none
      · simp [removedStep, he, hm]
      · simp [removedStep, he, hm]

/-! ### Top-level shape of `reconcileLocal` -/

theorem reconcileLocal_new (ts : String) (current : List (String × ScrapedOffer))
    (previous : List (String × Entry)) :
    (reconcileLocal ts current previous).new_offers =
      current.flatMap (fun kv => (processCurrentOffer ts previous kv.1 kv.2).1) := by
  unfold reconcileLocal
  simp [compare_foldl_new]

theorem reconcileLocal_disc (ts : String) (current : List (String × ScrapedOffer))
    (previous : List (String × Entry)) :
    (reconcileLocal ts current previous).discounted =
      current.flatMap (fun kv => (processCurrentOffer ts previous kv.1 kv.2).2.1) := by
  unfold reconcileLocal
  simp [compare_foldl_disc]

theorem contains_iff_mem_keys (l : List String) (k : String) :
    l.contains k = true ↔ k ∈ l := by
  simp [List.contains]

theorem reconcileLocal_next_lookup (ts : String) (current : List (String × ScrapedOffer))
    (previous : List (String × Entry)) (k : String)
    (hndC : (current.map Prod.fst).Nodup) (hndP : (previous.map Prod.fst).Nodup) :
    alookup k (reconcileLocal ts current previous).next_state =
      match alookup k current with
      | some cur => some (processCurrentOffer ts previous k cur).2.2
      | none => (alookup k previous).map (markRemoved ts) := by
  unfold reconcileLocal
  simp only
  rw [removed_foldl_next _ _ _ _ (hndP.filter _), compare_foldl_next _ _ _ _ _ hndC]
  rw [compare_foldl_ids]
  simp only [List.nil_append]
  cases hc : alookup k current with
  | some cur =>
    have hkc : k ∈ current.map Prod.fst := by
      rw [← alookup_isSome_iff, hc]; rfl
    have hnot : k ∉ (previous.map Prod.fst).filter
        (fun k' => ¬ (current.map Prod.fst).contains k') := by
      intro hmem
      have := (List.mem_filter.mp hmem).2
      rw [decide_eq_true_iff, contains_iff_mem_keys] at this
      exact this hkc
    rw [if_neg hnot]
  | none =>
    have hkc : k ∉ current.map Prod.fst := by
      rw [← alookup_eq_none_iff]; exact hc
    by_cases hkp : k ∈ previous.map Prod.fst
    · have hmem : k ∈ (previous.map Prod.fst).filter
          (fun k' => ¬ (current.map Prod.fst).contains k') := by
        rw [List.mem_filter]
        refine ⟨hkp, ?_⟩
        rw [decide_eq_true_iff, contains_iff_mem_keys]
        exact hkc
      rw [if_pos hmem]
    · have hnot : k ∉ (previous.map Prod.fst).filter
          (fun k' => ¬ (current.map Prod.fst).contains k') := by
        intro hmem
        exact hkp (List.mem_filter.mp hmem).1
      rw [if_neg hnot]
      have hp : alookup k previous = none := (alookup_eq_none_iff _ _).mpr hkp
      rw [hp]
      rfl

theorem reconcileLocal_removed (ts : String) (current : List (String × ScrapedOffer))
    (previous : List (String × Entry))
    (hndC : (current.map Prod.fst).Nodup) (hndP : (previous.map Prod.fst).Nodup) :
    (reconcileLocal ts current previous).removed =
      ((previous.map Prod.fst).filter
          (fun k => ¬ (current.map Prod.fst).contains k)).filterMap
        (fun k => match alookup k previous with
          | some e => if e.notified_as_removed_at = none
              then some { e with notified_as_removed_at := some ts } else none
          | none => none) := by
  unfold reconcileLocal
  simp only
  rw [compare_foldl_ids]
  simp only [List.nil_append]
  rw [removed_foldl_list _ _ _ (hndP.filter _)]
  simp only [List.nil_append]
  apply List.filterMap_congr
  intro k hkmem
  have hkc : alookup k current = none := by
    rw [alookup_eq_none_iff]
    have := (List.mem_filter.mp hkmem).2
    rw [decide_eq_true_iff, contains_iff_mem_keys] at this
    exact this
  rw [compare_foldl_next _ _ _ _ _ hndC, hkc]

/-! ### Shape facts about `processCurrentOffer` and invariant preservation -/

theorem processCurrentOffer_next_id (ts : String) (previous : List (String × Entry))
    (k : String) (cur : ScrapedOffer) :
    (processCurrentOffer ts previous k cur).2.2.id = cur.id := by
  unfold processCurrentOffer
  split
  · rfl
  · split <;> split <;> dsimp only <;> (try split_ifs) <;> rfl

theorem processCurrentOffer_next_marker (ts : String) (previous : List (String × Entry))
    (k : String) (cur : ScrapedOffer) :
    (processCurrentOffer ts previous k cur).2.2.notified_as_removed_at = none := by
  unfold processCurrentOffer
  split
  · rfl
  · split <;> split <;> dsimp only <;> (try split_ifs) <;> rfl

theorem aupd_keys_nodup {α : Type} (m : List (String × α)) (k : String) (v : α)
    (h : (m.map Prod.fst).Nodup) : ((aupd m k v).map Prod.fst).Nodup := by
  by_cases hs : (alookup k m).isSome
  · rw [aupd_keys_of_mem _ _ _ hs]
    exact h
  · unfold aupd
    rw [if_neg hs]
    have hk : k ∉ m.map Prod.fst := by
      rw [← alookup_eq_none_iff]
      cases hm : alookup k m
      · rfl
      · rw [hm] at hs; simp at hs
    simp [List.nodup_append, h, hk]

theorem compare_foldl_keys_nodup (ts : String) (previous : List (String × Entry))
    (l : List (String × ScrapedOffer)) (acc : CompareAcc)
    (h : (acc.next_state.map Prod.fst).Nodup) :
    ((l.foldl (compareStep ts previous) acc).next_state.map Prod.fst).Nodup := by
  induction l generalizing acc with
  | nil => exact h
  | cons kv t ih =>
    rw [List.foldl_cons]
    exact ih _ (aupd_keys_nodup _ _ _ h)

theorem removed_foldl_keys_nodup (ts : String) (ids : List String) (acc : RemovedAcc)
    (h : (acc.next_state.map Prod.fst).Nodup) :
    ((ids.foldl (removedStep ts) acc).next_state.map Prod.fst).Nodup := by
  induction ids generalizing acc with
  | nil => exact h
  | cons i t ih =>
    rw [List.foldl_cons]
    apply ih
    unfold removedStep
    cases he : alookup i acc.next_state with
    | none => exact h
    | some e =>
      by_cases hm : e.notified_as_removed_at = none
      · simp only [hm, if_pos]
        exact aupd_keys_nodup _ _ _ h
      · simp only [hm, if_neg, not_false_iff]
        exact h

theorem reconcileLocal_next_keys_nodup (ts : String)
    (current : List (String × ScrapedOffer)) (previous : List (String × Entry))
    (hndP : (previous.map Prod.fst).Nodup) :
    ((reconcileLocal ts current previous).next_state.map Prod.fst).Nodup := by
  unfold reconcileLocal
  exact removed_foldl_keys_nodup _ _ _ (compare_foldl_keys_nodup _ _ _ _ hndP)

/-- Well-formedness of a snapshot: every entry's `id` field is its key.  The
loader (`load_offer_state`, lines 73, 87) and the scrape (lines 277-278)
establish this; the reconciliation preserves it. -/
def SnapshotWF (m : List (String × Entry)) : Prop :=
  ∀ k e, alookup k m = some e → e.id = k

def ScrapeWF (m : List (String × ScrapedOffer)) : Prop :=
  ∀ k o, alookup k m = some o → o.id = k

theorem markRemoved_id (ts : String) (e : Entry) : (markRemoved ts e).id = e.id := by
  unfold markRemoved
  split_ifs <;> rfl

theorem markRemoved_marker (ts : String) (e : Entry) :
    (markRemoved ts e).notified_as_removed_at =
      (if e.notified_as_removed_at = none then some ts else e.notified_as_removed_at) := by
  unfold markRemoved
  split_ifs <;> rfl

theorem reconcileLocal_next_wf (ts : String) (current : List (String × ScrapedOffer))
    (previous : List (String × Entry))
    (hndC : (current.map Prod.fst).Nodup) (hndP : (previous.map Prod.fst).Nodup)
    (hwfP : SnapshotWF previous) (hwfC : ScrapeWF current) :
    SnapshotWF (reconcileLocal ts current previous).next_state := by
  intro k e' h
  rw [reconcileLocal_next_lookup _ _ _ _ hndC hndP] at h
  cases hc : alookup k current with
  | some cur =>
    rw [hc] at h
    simp only [Option.some.injEq] at h
    rw [← h, processCurrentOffer_next_id]
    exact hwfC k cur hc
  | none =>
    rw [hc] at h
    cases hp : alookup k previous with
    | none => rw [hp] at h; simp at h
    | some e =>
      rw [hp] at h
      have h' : markRemoved ts e = e' := by simpa using h
      rw [← h', markRemoved_id]
      exact hwfP k e hp

/-! ## Claim C1 -/

/-- C1.  Removal notify-once with reset on reappearance: for an id present in
`previous` but absent from `current`, `reconcileLocal` puts the id in the
`removed` list and sets its `notified_as_removed_at` marker if and only if
the marker was null before; on a later run where the id is still absent it
is not put in `removed` again; and if the id later appears in the scrape,
its marker in the resulting next state is reset to null. -/
theorem removal_notify_once_and_reset
    (ts ts1 ts2 : String)
    (previous : List (String × Entry)) (current cur1 cur2 : List (String × ScrapedOffer))
    (oid : String) (e : Entry)
    (hndP : (previous.map Prod.fst).Nodup)
    (hndC : (current.map Prod.fst).Nodup)
    (hndC1 : (cur1.map Prod.fst).Nodup)
    (hndC2 : (cur2.map Prod.fst).Nodup)
    (hwfP : SnapshotWF previous)
    (hwfC : ScrapeWF current)
    (he : alookup oid previous = some e)
    (habs : alookup oid current = none)
    (habs1 : alookup oid cur1 = none)
    (hpres2 : (alookup oid cur2).isSome) :
    ((∃ x ∈ (reconcileLocal ts current previous).removed, x.id = oid) ↔
        e.notified_as_removed_at = none) ∧
    (∃ e', alookup oid (reconcileLocal ts current previous).next_state = some e' ∧
        e'.notified_as_removed_at =
          (if e.notified_as_removed_at = none then some ts else e.notified_as_removed_at)) ∧
    (¬ ∃ x ∈ (reconcileLocal ts1 cur1
        (reconcileLocal ts current previous).next_state).removed, x.id = oid) ∧
    (∃ e'', alookup oid (reconcileLocal ts2 cur2
        (reconcileLocal ts current previous).next_state).next_state = some e'' ∧
        e''.notified_as_removed_at = none) := by
  have hkeyP : oid ∈ previous.map Prod.fst := by
    rw [← alookup_isSome_iff, he]; rfl
  have hkeyC : oid ∉ current.map Prod.fst := (alookup_eq_none_iff _ _).mp habs
  have hrem := reconcileLocal_removed ts current previous hndC hndP
  have hnext := reconcileLocal_next_lookup ts current previous oid hndC hndP
  rw [habs] at hnext
  rw [he] at hnext
  have hnext' : alookup oid (reconcileLocal ts current previous).next_state =
      some (markRemoved ts e) := hnext
  have hnd1 : ((reconcileLocal ts current previous).next_state.map Prod.fst).Nodup :=
    reconcileLocal_next_keys_nodup ts current previous hndP
  have hwf1 : SnapshotWF (reconcileLocal ts current previous).next_state :=
    reconcileLocal_next_wf ts current previous hndC hndP hwfP hwfC
  refine ⟨?_, ?_, ?_, ?_⟩
  · -- run 1: id in `removed` iff its marker was null
    rw [hrem]
    constructor
    · rintro ⟨x, hx, hid⟩
      rw [List.mem_filterMap] at hx
      obtain ⟨k, hkmem, hk⟩ := hx
      cases hp : alookup k previous with
      | none => rw [hp] at hk; simp at hk
      | some y =>
        rw [hp] at hk
        dsimp only at hk
        by_cases hy : y.notified_as_removed_at = none
        · rw [if_pos hy] at hk
          have hxy : x = { y with notified_as_removed_at := some ts } := (Option.some.inj hk).symm
          have hyid : y.id = k := hwfP k y hp
          have hks : k = oid := by
            rw [← hid, hxy]
            exact hyid.symm
          rw [hks] at hp
          rw [he] at hp
          obtain rfl : e = y := Option.some.inj hp
          exact hy
        · rw [if_neg hy] at hk
          exact absurd hk (by simp)
    · intro hnull
      refine ⟨{ e with notified_as_removed_at := some ts }, ?_, hwfP oid e he⟩
      rw [List.mem_filterMap]
      refine ⟨oid, ?_, ?_⟩
      · rw [List.mem_filter]
        refine ⟨hkeyP, ?_⟩
        rw [decide_eq_true_iff]
        intro hcont
        rw [contains_iff_mem_keys] at hcont
        exact hkeyC hcont
      · rw [he]
        dsimp only
        rw [if_pos hnull]
  · -- run 1: the marker in the next state
    exact ⟨markRemoved ts e, hnext', markRemoved_marker ts e⟩
  · -- run 2, still absent: never reported again
    rintro ⟨x, hx, hid⟩
    rw [reconcileLocal_removed ts1 cur1 _ hndC1 hnd1, List.mem_filterMap] at hx
    obtain ⟨k, hkmem, hk⟩ := hx
    cases hp : alookup k (reconcileLocal ts current previous).next_state with
    | none => rw [hp] at hk; simp at hk
    | some y =>
      rw [hp] at hk
      dsimp only at hk
      by_cases hy : y.notified_as_removed_at = none
      · rw [if_pos hy] at hk
        have hxy : x = { y with notified_as_removed_at := some ts1 } := (Option.some.inj hk).symm
        have hyid : y.id = k := hwf1 k y hp
        have hks : k = oid := by
          rw [← hid, hxy]
          exact hyid.symm
        rw [hks, hnext'] at hp
        obtain rfl : markRemoved ts e = y := Option.some.inj hp
        rw [markRemoved_marker] at hy
        split_ifs at hy <;> simp_all
      · rw [if_neg hy] at hk
        exact absurd hk (by simp)
  · -- reappearance: the marker is reset to null
    obtain ⟨cur, hcur⟩ := Option.isSome_iff_exists.mp hpres2
    have h2 := reconcileLocal_next_lookup ts2 cur2
      (reconcileLocal ts current previous).next_state oid hndC2 hnd1
    rw [hcur] at h2
    exact ⟨_, h2, processCurrentOffer_next_marker _ _ _ _⟩

/-- Witness for C1 at concrete inputs: `previous` tracks id 100 (marker null),
the first scrape is empty, the second scrape is empty again, and the third
scrape contains id 100 again. -/
theorem removal_notify_once_and_reset_witness :
    (∃ x ∈ (reconcileLocal "t1" []
        [("100", ⟨"100", "d", "s", some 50, "$50", none, "h", some "t0", none⟩)]).removed,
      x.id = "100") ∧
    (∃ e'', alookup "100" (reconcileLocal "t3" [("100", ⟨"100", "d", "s", some 50, "$50", none, "h"⟩)]
        (reconcileLocal "t1" []
          [("100", ⟨"100", "d", "s", some 50, "$50", none, "h", some "t0", none⟩)]).next_state).next_state
        = some e'' ∧ e''.notified_as_removed_at = none) := by
  have h := removal_notify_once_and_reset "t1" "t2" "t3"
    [("100", ⟨"100", "d", "s", some 50, "$50", none, "h", some "t0", none⟩)]
    [] [] [("100", ⟨"100", "d", "s", some 50, "$50", none, "h"⟩)]
    "100" ⟨"100", "d", "s", some 50, "$50", none, "h", some "t0", none⟩
    (by decide) (by decide) (by decide) (by decide)
    (by intro k e h; simp [alookup] at h; rw [h.2.symm]; simp [h.1])
    (by intro k o h; simp [alookup] at h)
    (by decide) (by decide) (by decide) (by decide)
  exact ⟨h.1.mpr rfl, h.2.2.2⟩

/-! ## The price-only reconciliation (funpay_scraper_v3.py `__main__`)

In funpay_scraper_v3.py the persisted snapshot maps offer id to last price
(`{offer_id: last_price}`, a nullable float), and `offers_for_next_state`
is built from scratch out of the current scrape (lines 408-441). -/

/-- A v3 `discounted_offers` element (lines 433-435): the scraped dict with
`last_price` and `discount_percent` added. -/
structure DiscountedOfferV3 where
  offer : ScrapedOffer
  last_price : ℚ
  discount_percent : ℚ
deriving DecidableEq

/-- The notification logic of one iteration of the v3 comparison loop
(funpay_scraper_v3.py lines 414-440): the entries appended to `new_offers`
and to `discounted_offers`. -/
def processOfferV3 (previous : List (String × Option ℚ)) (offer_id : String)
    (cur : ScrapedOffer) : List ScrapedOffer × List DiscountedOfferV3 :=
  match alookup offer_id previous with
  | none =>
    -- line 423-425: id not in previous state — new offer
    ([cur], [])
  | some last_price? =>
    match cur.price_usd, last_price? with
    | some current_price, some last_price =>
      if last_price > 0 then
        let price_diff := current_price - last_price
        if price_diff < 0 then
          let percent_decrease := pyAbs (price_diff / last_price) * 100
          if percent_decrease > PRICE_CHANGE_PERCENT_THRESHOLD then
            ([], [⟨cur, last_price, percent_decrease⟩])
          else ([], [])
        else ([], [])
      else ([], [])
    | some _, none =>
      -- lines 438-440: price newly available — notify as new
      ([cur], [])
    | none, _ => ([], [])

structure V3Acc where
  new_offers : List ScrapedOffer
  discounted : List DiscountedOfferV3
  next_state : List (String × Option ℚ)
  current_ids : List String
deriving DecidableEq

/-- One iteration of the v3 comparison loop: line 420 tentatively records
`offers_for_next_state[offer_id] = current_price` before the notification
logic. -/
def v3Step (previous : List (String × Option ℚ)) (acc : V3Acc)
    (kv : String × ScrapedOffer) : V3Acc :=
  let r := processOfferV3 previous kv.1 kv.2
  { new_offers := acc.new_offers ++ r.1
    discounted := acc.discounted ++ r.2
    next_state := aupd acc.next_state kv.1 kv.2.price_usd
    current_ids := acc.current_ids ++ [kv.1] }

structure V3Result where
  new_offers : List ScrapedOffer
  discounted : List DiscountedOfferV3
  next_state : List (String × Option ℚ)
  removed_count : Nat
deriving DecidableEq

/-- Step 3 of `__main__` in funpay_scraper_v3.py (lines 407-447): the
comparison loop plus the removed-offer count. -/
def reconcileV3 (current : List (String × ScrapedOffer))
    (previous : List (String × Option ℚ)) : V3Result :=
  let acc := current.foldl (v3Step previous)
    { new_offers := [], discounted := [], next_state := [], current_ids := [] }
  let removed_ids :=
    (previous.map Prod.fst).filter (fun k => ¬ acc.current_ids.contains k)
  { new_offers := acc.new_offers
    discounted := acc.discounted
    next_state := acc.next_state
    removed_count := removed_ids.length }

/-- Lines 457-458: `significant_changes_detected` and `state_update_needed`;
the v3 state file is only written when this is true (lines 463, 506-510). -/
def stateUpdateNeededV3 (r : V3Result) : Bool :=
  (!r.new_offers.isEmpty || !r.discounted.isEmpty) || decide (r.removed_count > 0)

theorem v3_foldl_new (previous : List (String × Option ℚ))
    (l : List (String × ScrapedOffer)) (acc : V3Acc) :
    (l.foldl (v3Step previous) acc).new_offers =
      acc.new_offers ++ l.flatMap (fun kv => (processOfferV3 previous kv.1 kv.2).1) := by
  induction l generalizing acc with
  | nil => simp
  | cons kv t ih => simp [v3Step, ih, List.flatMap_cons]

theorem v3_foldl_disc (previous : List (String × Option ℚ))
    (l : List (String × ScrapedOffer)) (acc : V3Acc) :
    (l.foldl (v3Step previous) acc).discounted =
      acc.discounted ++ l.flatMap (fun kv => (processOfferV3 previous kv.1 kv.2).2) := by
  induction l generalizing acc with
  | nil => simp
  | cons kv t ih => simp [v3Step, ih, List.flatMap_cons]

theorem v3_foldl_ids (previous : List (String × Option ℚ))
    (l : List (String × ScrapedOffer)) (acc : V3Acc) :
    (l.foldl (v3Step previous) acc).current_ids = acc.current_ids ++ l.map Prod.fst := by
  induction l generalizing acc with
  | nil => simp
  | cons kv t ih => simp [v3Step, ih]

theorem v3_foldl_next (previous : List (String × Option ℚ))
    (l : List (String × ScrapedOffer)) (acc : V3Acc) (k : String)
    (hnd : (l.map Prod.fst).Nodup) :
    alookup k (l.foldl (v3Step previous) acc).next_state =
      match alookup k l with
      | some cur => some cur.price_usd
      | none => alookup k acc.next_state := by
  induction l generalizing acc with
  | nil => simp
  | cons kv t ih =>
    obtain ⟨k0, cur0⟩ := kv
    simp only [List.map_cons, List.nodup_cons] at hnd
    by_cases hk : k0 = k
    · subst hk
      have ht : alookup k0 t = none := by
        rw [alookup_eq_none_iff]
        exact hnd.1
      rw [List.foldl_cons, ih _ hnd.2, ht]
      simp [v3Step, alookup_aupd_self]
    · rw [List.foldl_cons, ih _ hnd.2]
      have hck : alookup k ((k0, cur0) :: t) = alookup k t := by simp [hk]
      rw [hck]
      cases htk : alookup k t with
      | none =>
        simp only [htk]
        simp [v3Step, alookup_aupd_ne _ _ _ _ (fun h : k = k0 => hk h.symm)]
      | some cur => simp [htk]

theorem reconcileV3_new (current : List (String × ScrapedOffer))
    (previous : List (String × Option ℚ)) :
    (reconcileV3 current previous).new_offers =
      current.flatMap (fun kv => (processOfferV3 previous kv.1 kv.2).1) := by
  unfold reconcileV3
  simp [v3_foldl_new]

theorem reconcileV3_disc (current : List (String × ScrapedOffer))
    (previous : List (String × Option ℚ)) :
    (reconcileV3 current previous).discounted =
      current.flatMap (fun kv => (processOfferV3 previous kv.1 kv.2).2) := by
  unfold reconcileV3
  simp [v3_foldl_disc]

theorem reconcileV3_next_lookup (current : List (String × ScrapedOffer))
    (previous : List (String × Option ℚ)) (k : String)
    (hndC : (current.map Prod.fst).Nodup) :
    alookup k (reconcileV3 current previous).next_state =
      match alookup k current with
      | some cur => some cur.price_usd
      | none => none := by
  unfold reconcileV3
  simp only
  rw [v3_foldl_next _ _ _ _ hndC]
  cases hc : alookup k current <;> simp

theorem reconcileV3_removed_count (current : List (String × ScrapedOffer))
    (previous : List (String × Option ℚ)) :
    (reconcileV3 current previous).removed_count =
      ((previous.map Prod.fst).filter
        (fun k => ¬ (current.map Prod.fst).contains k)).length := by
  unfold reconcileV3
  simp only
  rw [v3_foldl_ids]
  simp

/-! ## Claim C2 -/

theorem alookup_of_mem_nodup {α : Type} {m : List (String × α)} {k : String} {v : α}
    (hmem : (k, v) ∈ m) (hnd : (m.map Prod.fst).Nodup) : alookup k m = some v := by
  induction m with
  | nil => simp at hmem
  | cons p t ih =>
    obtain ⟨a, b⟩ := p
    simp only [List.map_cons, List.nodup_cons] at hnd
    rcases List.mem_cons.mp hmem with h | h
    · obtain ⟨rfl, rfl⟩ : k = a ∧ v = b := by
        have := Prod.mk.injEq .. ▸ h
        exact ⟨congrArg Prod.fst h, congrArg Prod.snd h⟩
      simp
    · have hak : ¬ a = k := by
        intro hak
        subst hak
        exact hnd.1 (List.mem_map_of_mem Prod.fst h)
      simp [hak, ih h hnd.2]

/-- In the below-threshold price-decrease branch (funpay_scraper_local.py
lines 505-507), nothing is appended to the discount list and
`details_for_next_state['price_usd']` is set back to the old price. -/
theorem processCurrentOffer_suppressed (ts : String) (previous : List (String × Entry))
    (k : String) (cur : ScrapedOffer) (last : Entry) (cp lp : ℚ)
    (he : alookup k previous = some last)
    (hcp : cur.price_usd = some cp) (hlp : last.price_usd = some lp)
    (hpos : 0 < lp) (hdec : cp < lp)
    (hth : pyAbs ((cp - lp) / lp) * 100 ≤ PRICE_CHANGE_PERCENT_THRESHOLD) :
    (processCurrentOffer ts previous k cur).2.1 = [] ∧
    (processCurrentOffer ts previous k cur).2.2.price_usd = some lp := by
  unfold processCurrentOffer
  rw [he]
  dsimp only
  rw [hcp, hlp]
  dsimp only
  rw [if_pos hpos, if_pos (sub_neg.mpr hdec), if_neg (not_lt.mpr hth)]
  exact ⟨rfl, rfl⟩

theorem processCurrentOffer_disc_offer_id (ts : String) (previous : List (String × Entry))
    (k : String) (cur : ScrapedOffer) :
    ∀ d ∈ (processCurrentOffer ts previous k cur).2.1, d.offer.id = cur.id := by
  unfold processCurrentOffer
  split
  · intro d hd
    simp at hd
  · split <;> split <;> dsimp only <;> (try split_ifs) <;> intro d hd <;>
      simp_all [ScrapedOffer.toEntry]

/-- The v3 analogue of the suppressed branch (funpay_scraper_v3.py lines
436-437): below the threshold nothing is notified at all. -/
theorem processOfferV3_suppressed (previous : List (String × Option ℚ))
    (k : String) (cur : ScrapedOffer) (cp lp : ℚ)
    (he : alookup k previous = some (some lp))
    (hcp : cur.price_usd = some cp)
    (hpos : 0 < lp) (hdec : cp < lp)
    (hth : pyAbs ((cp - lp) / lp) * 100 ≤ PRICE_CHANGE_PERCENT_THRESHOLD) :
    processOfferV3 previous k cur = ([], []) := by
  unfold processOfferV3
  rw [he]
  dsimp only
  rw [hcp]
  dsimp only
  rw [if_pos hpos, if_pos (sub_neg.mpr hdec), if_neg (not_lt.mpr hth)]

theorem processOfferV3_disc_offer_id (previous : List (String × Option ℚ))
    (k : String) (cur : ScrapedOffer) :
    ∀ d ∈ (processOfferV3 previous k cur).2, d.offer.id = cur.id := by
  unfold processOfferV3
  split
  · intro d hd
    simp at hd
  · split <;> dsimp only <;> (try split_ifs) <;> intro d hd <;> simp_all

/-- C2 (amended).  For an offer present in both `current` and `previous`
with both prices present and a price decrease at or below the configured
percentage threshold, no entry is produced in the discount (price-change)
output list of either variant; the enriched variant
(funpay_scraper_local.py) sets `next_snapshot[id].price` back to the OLD
price (not the new current price), while the v3 variant's in-memory
`offers_for_next_state[id]` holds the new current price. -/
theorem price_threshold_suppression
    (ts : String) (current : List (String × ScrapedOffer)) (previous : List (String × Entry))
    (oid : String) (cur : ScrapedOffer) (e : Entry) (cp lp : ℚ)
    (curV3 : List (String × ScrapedOffer)) (prevV3 : List (String × Option ℚ))
    (oid3 : String) (o3 : ScrapedOffer) (cp3 lp3 : ℚ)
    (hndC : (current.map Prod.fst).Nodup) (hndP : (previous.map Prod.fst).Nodup)
    (hwfC : ScrapeWF current)
    (hc : alookup oid current = some cur)
    (he : alookup oid previous = some e)
    (hcp : cur.price_usd = some cp) (hlp : e.price_usd = some lp)
    (hpos : 0 < lp) (hdec : cp < lp)
    (hth : pyAbs ((cp - lp) / lp) * 100 ≤ PRICE_CHANGE_PERCENT_THRESHOLD)
    (hndC3 : (curV3.map Prod.fst).Nodup) (hwfC3 : ScrapeWF curV3)
    (hc3 : alookup oid3 curV3 = some o3)
    (he3 : alookup oid3 prevV3 = some (some lp3))
    (hcp3 : o3.price_usd = some cp3)
    (hpos3 : 0 < lp3) (hdec3 : cp3 < lp3)
    (hth3 : pyAbs ((cp3 - lp3) / lp3) * 100 ≤ PRICE_CHANGE_PERCENT_THRESHOLD) :
    (¬ ∃ d ∈ (reconcileLocal ts current previous).discounted, d.offer.id = oid) ∧
    (∃ e', alookup oid (reconcileLocal ts current previous).next_state = some e' ∧
        e'.price_usd = some lp) ∧
    (¬ ∃ d ∈ (reconcileV3 curV3 prevV3).discounted, d.offer.id = oid3) ∧
    alookup oid3 (reconcileV3 curV3 prevV3).next_state = some o3.price_usd := by
  refine ⟨?_, ?_, ?_, ?_⟩
  · rintro ⟨d, hd, hid⟩
    rw [reconcileLocal_disc, List.mem_flatMap] at hd
    obtain ⟨kv, hkv, hdkv⟩ := hd
    obtain ⟨k0, cur0⟩ := kv
    have hido : d.offer.id = cur0.id := processCurrentOffer_disc_offer_id _ _ _ _ d hdkv
    have hk0 : cur0.id = k0 := hwfC k0 cur0 (alookup_of_mem_nodup hkv hndC)
    have : k0 = oid := by rw [← hid, hido, hk0]
    subst this
    have : cur0 = cur := by
      have := alookup_of_mem_nodup hkv hndC
      rw [hc] at this
      exact (Option.some.inj this).symm
    subst this
    have hsup := processCurrentOffer_suppressed ts previous k0 cur0 e cp lp
      he hcp hlp hpos hdec hth
    rw [hsup.1] at hdkv
    simp at hdkv
  · have hnext := reconcileLocal_next_lookup ts current previous oid hndC hndP
    rw [hc] at hnext
    have hsup := processCurrentOffer_suppressed ts previous oid cur e cp lp
      he hcp hlp hpos hdec hth
    exact ⟨_, hnext, hsup.2⟩
  · rintro ⟨d, hd, hid⟩
    rw [reconcileV3_disc, List.mem_flatMap] at hd
    obtain ⟨kv, hkv, hdkv⟩ := hd
    obtain ⟨k0, cur0⟩ := kv
    have hido : d.offer.id = cur0.id := processOfferV3_disc_offer_id _ _ _ d hdkv
    have hk0 : cur0.id = k0 := hwfC3 k0 cur0 (alookup_of_mem_nodup hkv hndC3)
    have : k0 = oid3 := by rw [← hid, hido, hk0]
    subst this
    have : cur0 = o3 := by
      have := alookup_of_mem_nodup hkv hndC3
      rw [hc3] at this
      exact (Option.some.inj this).symm
    subst this
    have hsup := processOfferV3_suppressed prevV3 k0 cur0 cp3 lp3
      he3 hcp3 hpos3 hdec3 hth3
    rw [hsup] at hdkv
    simp at hdkv
  · have hnext := reconcileV3_next_lookup curV3 prevV3 oid3 hndC3
    rw [hc3] at hnext
    exact hnext

/-- Witness for C2 at concrete inputs: prices 50 → 48 (a 4% decrease, below
the 5% threshold) in both variants. -/
theorem price_threshold_suppression_witness :
    (∃ e', alookup "100" (reconcileLocal "t1"
        [("100", ⟨"100", "d", "s", some 48, "$48", none, "h"⟩)]
        [("100", ⟨"100", "d", "s", some 50, "$50", none, "h", some "t0", none⟩)]).next_state
        = some e' ∧ e'.price_usd = some 50) ∧
    alookup "100" (reconcileV3
        [("100", ⟨"100", "d", "s", some 48, "$48", none, "h"⟩)]
        [("100", some 50)]).next_state = some (some 48) := by
  have h := price_threshold_suppression "t1"
    [("100", ⟨"100", "d", "s", some 48, "$48", none, "h"⟩)]
    [("100", ⟨"100", "d", "s", some 50, "$50", none, "h", some "t0", none⟩)]
    "100" ⟨"100", "d", "s", some 48, "$48", none, "h"⟩
    ⟨"100", "d", "s", some 50, "$50", none, "h", some "t0", none⟩ 48 50
    [("100", ⟨"100", "d", "s", some 48, "$48", none, "h"⟩)]
    [("100", some 50)] "100" ⟨"100", "d", "s", some 48, "$48", none, "h"⟩ 48 50
    (by decide) (by decide)
    (by intro k o hko; simp [alookup] at hko; rw [hko.2.symm]; simp [hko.1])
    (by decide) (by decide) (by decide) (by decide)
    (by with_unfolding_all decide) (by with_unfolding_all decide)
    (by with_unfolding_all decide)
    (by decide)
    (by intro k o hko; simp [alookup] at hko; rw [hko.2.symm]; simp [hko.1])
    (by decide) (by decide) (by decide) (by decide)
    (by with_unfolding_all decide) (by with_unfolding_all decide)
  exact ⟨h.2.1, h.2.2.2⟩

/-- Counterexample to C2 as stated: with `previous` price 50 and `current`
price 48 (a 4% decrease, at or below the 5% threshold), the enriched
variant's `next_snapshot["100"].price` is 50 (the old price), not the new
current price 48 that the claim asserts. -/
theorem price_threshold_suppression_counterexample :
    (alookup "100" (reconcileLocal "t1"
        [("100", ⟨"100", "d", "s", some 48, "$48", none, "h"⟩)]
        [("100", ⟨"100", "d", "s", some 50, "$50", none, "h", some "t0", none⟩)]).next_state).map
      Entry.price_usd = some (some 50) ∧
    ¬ ((alookup "100" (reconcileLocal "t1"
        [("100", ⟨"100", "d", "s", some 48, "$48", none, "h"⟩)]
        [("100", ⟨"100", "d", "s", some 50, "$50", none, "h", some "t0", none⟩)]).next_state).map
      Entry.price_usd = some (some 48)) := by
  with_unfolding_all decide

/-! ## Claim C3 -/

/-- A known offer whose price is unchanged and whose removal marker is null
triggers no notification at all. -/
theorem processCurrentOffer_unchanged (ts : String) (previous : List (String × Entry))
    (k : String) (cur : ScrapedOffer) (e : Entry)
    (he : alookup k previous = some e)
    (hm : e.notified_as_removed_at = none)
    (hp : cur.price_usd = e.price_usd) :
    (processCurrentOffer ts previous k cur).1 = [] ∧
    (processCurrentOffer ts previous k cur).2.1 = [] ∧
    (processCurrentOffer ts previous k cur).2.2.price_usd = e.price_usd := by
  unfold processCurrentOffer
  rw [he]
  dsimp only
  rw [hp, hm]
  simp only [ne_eq, not_true_eq_false, if_neg, not_false_iff]
  cases hep : e.price_usd with
  | none =>
    simp [ScrapedOffer.toEntry, hp, hep]
  | some lp =>
    dsimp only
    by_cases hpos : lp > 0
    · rw [if_pos hpos, if_neg (by simp : ¬ (lp - lp < 0))]
      simp [ScrapedOffer.toEntry, hp, hep]
    · rw [if_neg hpos]
      simp [ScrapedOffer.toEntry, hp, hep]

/-- A v3 offer whose stored price equals its current price triggers no
notification. -/
theorem processOfferV3_unchanged (previous : List (String × Option ℚ))
    (k : String) (cur : ScrapedOffer)
    (he : alookup k previous = some cur.price_usd) :
    processOfferV3 previous k cur = ([], []) := by
  unfold processOfferV3
  rw [he]
  cases hp : cur.price_usd with
  | none => rfl
  | some c =>
    dsimp only
    by_cases hpos : c > 0
    · rw [if_pos hpos, if_neg (by simp : ¬ (c - c < 0))]
    · rw [if_neg hpos]

theorem compare_foldl_keys_of_all_mem (ts : String) (previous : List (String × Entry))
    (l : List (String × ScrapedOffer)) (acc : CompareAcc)
    (h : ∀ kv ∈ l, kv.1 ∈ acc.next_state.map Prod.fst) :
    (l.foldl (compareStep ts previous) acc).next_state.map Prod.fst =
      acc.next_state.map Prod.fst := by
  induction l generalizing acc with
  | nil => rfl
  | cons kv t ih =>
    rw [List.foldl_cons]
    have hmem : kv.1 ∈ acc.next_state.map Prod.fst := h kv (List.mem_cons_self _ _)
    have hkeys : (compareStep ts previous acc kv).next_state.map Prod.fst =
        acc.next_state.map Prod.fst := by
      unfold compareStep
      exact aupd_keys_of_mem _ _ _ ((alookup_isSome_iff _ _).mpr hmem)
    rw [ih _ (fun kv' hkv' => hkeys ▸ h kv' (List.mem_cons_of_mem _ hkv')), hkeys]

/-- C3 (amended).  When `current` and `previous` track exactly the same ids
with the same prices (and, in the enriched variant, no removal markers are
set), one reconciliation run produces empty `new`, discounted and `removed`
outputs in both variants.  In the v3 (price-only) variant `next_snapshot`
equals `previous` pointwise and no state write happens at all; in the
enriched (local) variant the next state has the same keys with the same
prices and null markers, but each entry's `last_seen_active` and display
fields are refreshed from the current scrape, so the snapshot is not
literally equal to `previous`. -/
theorem idempotence_of_unchanged_input
    (ts : String) (current : List (String × ScrapedOffer)) (previous : List (String × Entry))
    (curV3 : List (String × ScrapedOffer)) (prevV3 : List (String × Option ℚ))
    (hndC : (current.map Prod.fst).Nodup) (hndP : (previous.map Prod.fst).Nodup)
    (hsame1 : ∀ p ∈ current, ∃ e, alookup p.1 previous = some e ∧
        e.price_usd = p.2.price_usd ∧ e.notified_as_removed_at = none)
    (hsame2 : ∀ q ∈ previous, (alookup q.1 current).isSome)
    (hndC3 : (curV3.map Prod.fst).Nodup)
    (hsame3 : ∀ p ∈ curV3, alookup p.1 prevV3 = some p.2.price_usd)
    (hall3 : ∀ q ∈ prevV3, (alookup q.1 curV3).isSome) :
    (reconcileLocal ts current previous).new_offers = [] ∧
    (reconcileLocal ts current previous).discounted = [] ∧
    (reconcileLocal ts current previous).removed = [] ∧
    (reconcileLocal ts current previous).next_state.map Prod.fst = previous.map Prod.fst ∧
    (∀ k, (alookup k (reconcileLocal ts current previous).next_state).map
        (fun e => (e.price_usd, e.notified_as_removed_at)) =
      (alookup k previous).map (fun e => (e.price_usd, e.notified_as_removed_at))) ∧
    (reconcileV3 curV3 prevV3).new_offers = [] ∧
    (reconcileV3 curV3 prevV3).discounted = [] ∧
    (reconcileV3 curV3 prevV3).removed_count = 0 ∧
    (∀ k, alookup k (reconcileV3 curV3 prevV3).next_state = alookup k prevV3) ∧
    stateUpdateNeededV3 (reconcileV3 curV3 prevV3) = false := by
  have hproc : ∀ kv ∈ current,
      (processCurrentOffer ts previous kv.1 kv.2).1 = [] ∧
      (processCurrentOffer ts previous kv.1 kv.2).2.1 = [] ∧
      (processCurrentOffer ts previous kv.1 kv.2).2.2.price_usd = kv.2.price_usd := by
    intro kv hkv
    obtain ⟨e, he, hpe, hme⟩ := hsame1 kv hkv
    have h := processCurrentOffer_unchanged ts previous kv.1 kv.2 e he hme hpe.symm
    exact ⟨h.1, h.2.1, hpe ▸ h.2.2⟩
  have hremids : (previous.map Prod.fst).filter
      (fun k => ¬ (current.map Prod.fst).contains k) = [] := by
    rw [List.filter_eq_nil_iff]
    intro k hk
    obtain ⟨q, hq, rfl⟩ := List.mem_map.mp hk
    obtain ⟨v, hv⟩ := Option.isSome_iff_exists.mp (hsame2 q hq)
    have hmem : (q.1, v) ∈ current := alookup_mem hv
    simp
    exact ⟨v, hmem⟩
  have hnew : (reconcileLocal ts current previous).new_offers = [] := by
    rw [reconcileLocal_new, List.flatMap_eq_nil_iff]
    intro kv hkv
    exact (hproc kv hkv).1
  have hdisc : (reconcileLocal ts current previous).discounted = [] := by
    rw [reconcileLocal_disc, List.flatMap_eq_nil_iff]
    intro kv hkv
    exact (hproc kv hkv).2.1
  have hrem : (reconcileLocal ts current previous).removed = [] := by
    rw [reconcileLocal_removed _ _ _ hndC hndP, hremids]
    rfl
  have hkeys : (reconcileLocal ts current previous).next_state.map Prod.fst =
      previous.map Prod.fst := by
    unfold reconcileLocal
    simp only
    rw [compare_foldl_ids]
    simp only [List.nil_append]
    rw [hremids, List.foldl_nil]
    apply compare_foldl_keys_of_all_mem
    intro kv hkv
    obtain ⟨e, he, _, _⟩ := hsame1 kv hkv
    rw [← alookup_isSome_iff, he]
    rfl
  have hpoint : ∀ k, (alookup k (reconcileLocal ts current previous).next_state).map
      (fun e => (e.price_usd, e.notified_as_removed_at)) =
      (alookup k previous).map (fun e => (e.price_usd, e.notified_as_removed_at)) := by
    intro k
    rw [reconcileLocal_next_lookup _ _ _ _ hndC hndP]
    cases hc : alookup k current with
    | some cur =>
      obtain ⟨e, he, hpe, hme⟩ := hsame1 (k, cur) (alookup_mem hc)
      rw [he]
      have h := processCurrentOffer_unchanged ts previous k cur e he hme hpe.symm
      rw [Option.map_some', Option.map_some', processCurrentOffer_next_marker, h.2.2, hme]
    | none =>
      cases hp : alookup k previous with
      | none => rfl
      | some e =>
        exfalso
        have := hsame2 (k, e) (alookup_mem hp)
        rw [alookup_isSome_iff] at this
        rw [alookup_eq_none_iff] at hc
        exact hc this
  have hremids3 : (prevV3.map Prod.fst).filter
      (fun k => ¬ (curV3.map Prod.fst).contains k) = [] := by
    rw [List.filter_eq_nil_iff]
    intro k hk
    obtain ⟨q, hq, rfl⟩ := List.mem_map.mp hk
    obtain ⟨v, hv⟩ := Option.isSome_iff_exists.mp (hall3 q hq)
    have hmem : (q.1, v) ∈ curV3 := alookup_mem hv
    simp
    exact ⟨v, hmem⟩
  have hproc3 : ∀ kv ∈ curV3, processOfferV3 prevV3 kv.1 kv.2 = ([], []) := by
    intro kv hkv
    exact processOfferV3_unchanged prevV3 kv.1 kv.2 (hsame3 kv hkv)
  have hnew3 : (reconcileV3 curV3 prevV3).new_offers = [] := by
    rw [reconcileV3_new, List.flatMap_eq_nil_iff]
    intro kv hkv
    rw [hproc3 kv hkv]
  have hdisc3 : (reconcileV3 curV3 prevV3).discounted = [] := by
    rw [reconcileV3_disc, List.flatMap_eq_nil_iff]
    intro kv hkv
    rw [hproc3 kv hkv]
  have hcount3 : (reconcileV3 curV3 prevV3).removed_count = 0 := by
    rw [reconcileV3_removed_count, hremids3]
    rfl
  have hpoint3 : ∀ k, alookup k (reconcileV3 curV3 prevV3).next_state = alookup k prevV3 := by
    intro k
    rw [reconcileV3_next_lookup _ _ _ hndC3]
    cases hc : alookup k curV3 with
    | some cur => exact (hsame3 (k, cur) (alookup_mem hc)).symm
    | none =>
      cases hp : alookup k prevV3 with
      | none => rfl
      | some v =>
        exfalso
        have := hall3 (k, v) (alookup_mem hp)
        rw [alookup_isSome_iff] at this
        rw [alookup_eq_none_iff] at hc
        exact hc this
  refine ⟨hnew, hdisc, hrem, hkeys, hpoint, hnew3, hdisc3, hcount3, hpoint3, ?_⟩
  rw [stateUpdateNeededV3, hnew3, hdisc3, hcount3]
  rfl

/-- Witness for C3 at concrete inputs: both variants track id 100 at price
50, unchanged. -/
theorem idempotence_of_unchanged_input_witness :
    (reconcileLocal "t1" [("100", ⟨"100", "d", "s", some 50, "$50", none, "h"⟩)]
      [("100", ⟨"100", "d", "s", some 50, "$50", none, "h", some "t0", none⟩)]).removed = [] ∧
    (∀ k, alookup k (reconcileV3 [("100", ⟨"100", "d", "s", some 50, "$50", none, "h"⟩)]
      [("100", some 50)]).next_state = alookup k [("100", some 50)]) := by
  have h := idempotence_of_unchanged_input "t1"
    [("100", ⟨"100", "d", "s", some 50, "$50", none, "h"⟩)]
    [("100", ⟨"100", "d", "s", some 50, "$50", none, "h", some "t0", none⟩)]
    [("100", ⟨"100", "d", "s", some 50, "$50", none, "h"⟩)]
    [("100", some 50)]
    (by decide) (by decide)
    (by intro p hp
        simp only [List.mem_singleton] at hp
        subst hp
        exact ⟨⟨"100", "d", "s", some 50, "$50", none, "h", some "t0", none⟩, by decide⟩)
    (by intro q hq
        simp only [List.mem_singleton] at hq
        subst hq
        decide)
    (by decide)
    (by intro p hp
        simp only [List.mem_singleton] at hp
        subst hp
        decide)
    (by intro q hq
        simp only [List.mem_singleton] at hq
        subst hq
        decide)
  exact ⟨h.2.2.1, h.2.2.2.2.2.2.2.2.1⟩

/-- Counterexample to C3 as stated: with identical ids and prices in
`current` and `previous`, the enriched variant still refreshes
`last_seen_active` to the run timestamp, so `next_snapshot` is not equal to
`previous` (the claim asserts equality). -/
theorem idempotence_of_unchanged_input_counterexample :
    ¬ ((alookup "100" (reconcileLocal "t1"
        [("100", ⟨"100", "d", "s", some 50, "$50", none, "h"⟩)]
        [("100", ⟨"100", "d", "s", some 50, "$50", none, "h", some "t0", none⟩)]).next_state) =
      (alookup "100" [("100",
        (⟨"100", "d", "s", some 50, "$50", none, "h", some "t0", none⟩ : Entry))])) := by
  with_unfolding_all decide

/-! ## Output-list sorting and the full runs (claims C4, C5, C6)

The sort key is `lambda item: item.get('price_usd', float('inf'))`
(funpay_scraper_local.py lines 542-546, funpay_scraper_v3.py lines
449-452).  Every notify-list dict carries the `price_usd` key — Python's
`dict.get` returns the stored value even when that value is `None`, so the
`float('inf')` default is never used and a price-absent entry yields the
sort key `None`. -/

/-- Python `list.sort(key=key)` where `key` yields a number or `None`.
When every key is a number the list is sorted stably ascending (CPython's
sort is stable).  When some entry's key is `None` and the list has at least
two elements, the sort's initial run-detection pass compares every adjacent
pair of keys, so the `None` key is compared against a number or another
`None`; both `None < float` and `None < None` raise `TypeError`, modelled
as `Except.error ()`.  (A singleton or empty list performs no comparison
and cannot raise.) -/
def pySortKeyed {α : Type} (key : α → Option ℚ) (l : List α) : Except Unit (List α) :=
  if 2 ≤ l.length ∧ l.any (fun a => (key a).isNone) then Except.error ()
  else Except.ok (l.insertionSort (fun a b => ((key a).getD 0) ≤ ((key b).getD 0)))

instance exceptDecidableEq {α β : Type} [DecidableEq α] [DecidableEq β] :
    DecidableEq (Except α β) := fun x y =>
  match x, y with
  | Except.error a, Except.error b =>
    if h : a = b then Decidable.isTrue (by rw [h])
    else Decidable.isFalse (fun hh => h (Except.error.inj hh))
  | Except.error _, Except.ok _ => Decidable.isFalse (fun hh => Except.noConfusion hh)
  | Except.ok _, Except.error _ => Decidable.isFalse (fun hh => Except.noConfusion hh)
  | Except.ok a, Except.ok b =>
    if h : a = b then Decidable.isTrue (by rw [h])
    else Decidable.isFalse (fun hh => h (Except.ok.inj hh))

/-- Outcome of one full run: the process exit code and the snapshot handed
to `save_offer_state` (`none` when the run never reaches the state write). -/
structure RunResult where
  exitCode : Nat
  saved : Option (List (String × Entry))
deriving DecidableEq

/-- The `__main__` control flow of funpay_scraper_local.py as a function of
the fetch outcome (`none` models a scrape failure: timeout, connection
error or non-2xx, all of which make `scrape_all_offers_details` return
`None`):
* lines 449-451: a failed scrape exits via `sys.exit(str)` (exit code 1)
  before any state mutation;
* lines 542-546: the three notify lists are sorted; an uncaught `TypeError`
  from `list.sort` aborts the script (exit code 1) before the state write;
* lines 606-610: otherwise the state is saved regardless of the
  notification outcome (delivery is not modelled: it does not affect the
  exit code or the saved state in this script). -/
def runLocal (ts : String) (previous : List (String × Entry))
    (scrape : Option (List (String × ScrapedOffer))) : RunResult :=
  match scrape with
  | none => { exitCode := 1, saved := none }
  | some current =>
    let r := reconcileLocal ts current previous
    match pySortKeyed (fun e => e.price_usd) r.new_offers,
          pySortKeyed (fun d => d.offer.price_usd) r.discounted,
          pySortKeyed (fun e => e.price_usd) r.removed with
    | Except.ok _, Except.ok _, Except.ok _ => { exitCode := 0, saved := some r.next_state }
    | _, _, _ => { exitCode := 1, saved := none }

structure RunResultV3 where
  exitCode : Nat
  saved : Option (List (String × Option ℚ))
deriving DecidableEq

/-- The `__main__` control flow of funpay_scraper_v3.py as a function of the
fetch outcome: lines 403-405 exit on a failed scrape; lines 449-452 sort
the two notify lists; lines 506-510 save the state only when
`state_update_needed`. -/
def runV3 (previous : List (String × Option ℚ))
    (scrape : Option (List (String × ScrapedOffer))) : RunResultV3 :=
  match scrape with
  | none => { exitCode := 1, saved := none }
  | some current =>
    let r := reconcileV3 current previous
    match pySortKeyed (fun o => o.price_usd) r.new_offers,
          pySortKeyed (fun d => d.offer.price_usd) r.discounted with
    | Except.ok _, Except.ok _ =>
      { exitCode := 0, saved := if stateUpdateNeededV3 r then some r.next_state else none }
    | _, _ => { exitCode := 1, saved := none }

/-! ## Claim C4 -/

/-- C4 (evaluating the code at the failing input).  A scrape that yields
zero listings returns the empty dict `{}` (not `None`), which `__main__`
does not distinguish from a normal scrape: with a non-empty previous
snapshot, every previously tracked id is classified as removed in a single
run, the run exits 0, and the snapshot is overwritten with every entry
marked `notified_as_removed_at` — there is no distinguishable error/empty
condition.  This contradicts the claim (and spec §4.3's caveat), so the
claim is recorded as a code bug. -/
theorem zero_scrape_removal_cascade :
    ((reconcileLocal "t1" ([] : List (String × ScrapedOffer))
        [("100", ⟨"100", "d", "s", some 50, "$50", none, "h", some "t0", none⟩),
         ("200", ⟨"200", "d2", "s2", some 60, "$60", none, "h2", some "t0", none⟩)]).removed.map
      Entry.id = ["100", "200"]) ∧
    runLocal "t1"
        [("100", ⟨"100", "d", "s", some 50, "$50", none, "h", some "t0", none⟩),
         ("200", ⟨"200", "d2", "s2", some 60, "$60", none, "h2", some "t0", none⟩)]
        (some []) =
      { exitCode := 0
        saved := some
          [("100", ⟨"100", "d", "s", some 50, "$50", none, "h", some "t0", some "t1"⟩),
           ("200", ⟨"200", "d2", "s2", some 60, "$60", none, "h2", some "t0", some "t1"⟩)] } := by
  with_unfolding_all decide

/-! ## Claim C5 -/

/-- C5 (evaluating the code at the failing input).  With an empty previous
snapshot and a scrape containing two new offers, one of which has an
unparsable price (`price_usd = None`), the `new` notify list holds a
price-absent entry next to a priced one; `list.sort` with the
`price_sort_key` then raises `TypeError` (the `None` key is compared with
`10.0`), the run aborts with a traceback (exit code 1) and the snapshot is
never written — instead of ordering the price-absent entry last as the
claim asserts. -/
theorem sorting_crash_on_absent_price :
    pySortKeyed (fun e => e.price_usd)
      (reconcileLocal "t1"
        [("1", ⟨"1", "d", "s", some 10, "$10", none, "h1"⟩),
         ("2", ⟨"2", "d2", "s2", none, "N/A", none, "h2"⟩)] []).new_offers
      = Except.error () ∧
    runLocal "t1" []
      (some [("1", ⟨"1", "d", "s", some 10, "$10", none, "h1"⟩),
             ("2", ⟨"2", "d2", "s2", none, "N/A", none, "h2"⟩)]) =
      { exitCode := 1, saved := none } := by
  with_unfolding_all decide

/-! ## Claim C6 -/

/-- C6.  Fetch-failure atomicity: when the page fetch fails (timeout,
connection error or non-2xx response, all of which make the scrape function
return `None`), both run variants exit with code 1 before any snapshot is
handed to the save path, leaving the persisted state untouched. -/
theorem fetch_failure_aborts_without_state_write :
    ∀ (ts : String) (previous : List (String × Entry))
      (prevV3 : List (String × Option ℚ)),
    runLocal ts previous none = { exitCode := 1, saved := none } ∧
    runV3 prevV3 none = { exitCode := 1, saved := none } := by
  intro ts previous prevV3
  exact ⟨rfl, rfl⟩

/-! ## Derived-quantity extraction (claim C7)

`extract_sp_from_description` (funpay_scraper_local.py lines 129-157; the
identical function appears in funpay_scraper_v3.py and
funpay_scraper_simplified.py) lowercases the description, removes commas,
strips it, and applies
`re.search(r'[\s,]*(\d+(?:\.\d+)?)\s*m\s*sp\s*$', ...)`. -/

/-- The whitespace class of Python's regex `\s` and `str.strip()` (ASCII
subset; Unicode whitespace is not modelled). -/
def isPySpace (c : Char) : Bool :=
  c = ' ' || c = '\t' || c = '\n' || c = '\r' || c = '\x0b' || c = '\x0c'

/-- Python `str.strip()`. -/
def pyStrip (l : List Char) : List Char :=
  ((l.dropWhile isPySpace).reverse.dropWhile isPySpace).reverse

/-- `description.lower().replace(',', '').strip()` (line 135). -/
def normalizeDesc (l : List Char) : List Char :=
  pyStrip ((l.map Char.toLower).filter (fun c => c != ','))

def digitsToNat (l : List Char) : Nat :=
  l.foldl (fun a c => a * 10 + (c.toNat - '0'.toNat)) 0

/-- Python `float(s)` on a string matched by `\d+(?:\.\d+)?`. -/
def parseNumber (cs : List Char) : ℚ :=
  let ip := cs.takeWhile Char.isDigit
  let rest := cs.dropWhile Char.isDigit
  match rest with
  | '.' :: fp => (digitsToNat ip : ℚ) + (digitsToNat fp : ℚ) / (10 : ℚ) ^ fp.length
  | _ => (digitsToNat ip : ℚ)

/-- `re.search(r'[\s,]*(\d+(?:\.\d+)?)\s*m\s*sp\s*$', s)`, specialised to
this end-anchored pattern: commas have already been removed (so `[\s,]*`
that precedes the capture is equivalent to `\s*` and does not constrain the
capture), and because the pattern is anchored at `$` with a greedy `\d+`,
the leftmost regex match captures exactly the maximal number literal ending
just before the whitespace-`m`-whitespace-`sp` tail.  The scan therefore
proceeds backwards from the end of the string: `matchNumberBack` reads the
captured `\\d+(?:\\.\\d+)?` (reversed) once the `sp`, `m` and whitespace
have been consumed, and `matchEndSp` returns the captured number's
characters in order, or `none` when the pattern does not match. -/
def matchNumberBack (r5 : List Char) : Option (List Char) :=
  if (r5.takeWhile Char.isDigit).isEmpty then none
  else
    match r5.dropWhile Char.isDigit with
    | '.' :: r7 =>
      if (r7.takeWhile Char.isDigit).isEmpty then some (r5.takeWhile Char.isDigit).reverse
      else some ((r7.takeWhile Char.isDigit).reverse ++ '.' :: (r5.takeWhile Char.isDigit).reverse)
    | _ => some (r5.takeWhile Char.isDigit).reverse

def matchEndSp (s : List Char) : Option (List Char) :=
  match (s.reverse).dropWhile isPySpace with
  | 'p' :: 's' :: r2 =>
    match r2.dropWhile isPySpace with
    | 'm' :: r4 => matchNumberBack (r4.dropWhile isPySpace)
    | _ => none
  | _ => none

/-- `SANITY_CHECK_THRESHOLD = 1000` (line 143). -/
def SANITY_CHECK_THRESHOLD : ℚ := 1000

/-- `extract_sp_from_description` (lines 129-157).  The `float()` conversion
cannot fail on a string matched by `\d+(?:\.\d+)?`, so the `ValueError`
branch (lines 152-154) is unreachable and not modelled. -/
def extract_sp_from_description (description : List Char) : Option ℚ :=
  if description.isEmpty then none
  else
    match matchEndSp (normalizeDesc description) with
    | some sp_value_str =>
      let sp_value := parseNumber sp_value_str
      if sp_value > SANITY_CHECK_THRESHOLD then some (sp_value / 1000000)
      else some sp_value
    | none => none

/-- A number literal matched by `\d+(?:\.\d+)?`. -/
def IsNumberLit (num : List Char) : Prop :=
  (num ≠ [] ∧ num.all Char.isDigit = true) ∨
  (∃ ip fp, num = ip ++ '.' :: fp ∧ ip ≠ [] ∧ ip.all Char.isDigit = true ∧
    fp ≠ [] ∧ fp.all Char.isDigit = true)

/-- The claim's reading of the pattern: the (normalized) description ends
with `<number> m sp` — a number literal, optional whitespace, `m`, optional
whitespace, `sp`, optional trailing whitespace. -/
def EndSpPattern (t : List Char) : Prop :=
  ∃ (a num w1 w2 w3 : List Char),
    t = a ++ num ++ w1 ++ 'm' :: (w2 ++ 's' :: 'p' :: w3) ∧
    IsNumberLit num ∧
    w1.all isPySpace = true ∧ w2.all isPySpace = true ∧ w3.all isPySpace = true

theorem isDigit_not_pySpace {c : Char} (h : c.isDigit = true) : isPySpace c = false := by
  unfold isPySpace
  by_contra hc
  rw [Bool.not_eq_false] at hc
  simp only [Bool.or_eq_true, decide_eq_true_eq] at hc
  rcases hc with ((((rfl | rfl) | rfl) | rfl) | rfl) | rfl <;> exact absurd h (by decide)

theorem all_takeWhile {α : Type} (p : α → Bool) (l : List α) :
    (l.takeWhile p).all p = true := by
  induction l with
  | nil => rfl
  | cons c t ih =>
    rw [List.takeWhile_cons]
    by_cases hc : p c = true
    · simp [hc, ih]
    · simp [hc]

theorem dropWhile_append_of_all {α : Type} {p : α → Bool} {xs : List α} (ys : List α)
    (h : xs.all p = true) : (xs ++ ys).dropWhile p = ys.dropWhile p := by
  induction xs with
  | nil => rfl
  | cons c t ih =>
    rw [List.all_cons, Bool.and_eq_true] at h
    rw [List.cons_append, List.dropWhile_cons, if_pos h.1]
    exact ih h.2

theorem dropWhile_cons_of_neg {α : Type} {p : α → Bool} {c : α} (t : List α)
    (h : p c = false) : (c :: t).dropWhile p = c :: t := by
  rw [List.dropWhile_cons, if_neg]
  simp [h]

theorem takeWhile_cons_of_neg {α : Type} {p : α → Bool} {c : α} (t : List α)
    (h : p c = false) : (c :: t).takeWhile p = [] := by
  rw [List.takeWhile_cons, if_neg]
  simp [h]

theorem all_reverse' {α : Type} (p : α → Bool) (l : List α) :
    l.reverse.all p = l.all p := by
  rw [Bool.eq_iff_iff]
  simp [List.all_eq_true, List.mem_reverse]

theorem isEmpty_eq_false_iff {α : Type} (l : List α) : l.isEmpty = false ↔ l ≠ [] := by
  cases l <;> simp

/-- Soundness of the backward scan: a successful match yields a
decomposition of the string into prefix, captured number literal,
whitespace, `m`, whitespace, `sp`, trailing whitespace. -/
theorem matchEndSp_sound {t num : List Char} (h : matchEndSp t = some num) :
    IsNumberLit num ∧
    ∃ a w1 w2 w3, t = a ++ num ++ w1 ++ 'm' :: (w2 ++ 's' :: 'p' :: w3) ∧
      w1.all isPySpace = true ∧ w2.all isPySpace = true ∧ w3.all isPySpace = true := by
  unfold matchEndSp at h
  try dsimp only at h
  split at h
  case h_2 => exact absurd h (by simp)
  case h_1 r2 he1 =>
  try dsimp only at h
  split at h
  case h_2 => exact absurd h (by simp)
  case h_1 r4 he2 =>
  unfold matchNumberBack at h
  split at h
  case isTrue => exact absurd h (by simp)
  case isFalse hd1 =>
  -- shared decomposition pieces
  have hrt : t.reverse = (t.reverse.takeWhile isPySpace) ++ ('p' :: 's' :: r2) := by
    conv_lhs => rw [← List.takeWhile_append_dropWhile isPySpace t.reverse]
    rw [he1]
  have hr2 : r2 = (r2.takeWhile isPySpace) ++ ('m' :: r4) := by
    conv_lhs => rw [← List.takeWhile_append_dropWhile isPySpace r2]
    rw [he2]
  have hr4 : r4 = (r4.takeWhile isPySpace) ++ (r4.dropWhile isPySpace) :=
    (List.takeWhile_append_dropWhile _ _).symm
  have hr5 : r4.dropWhile isPySpace =
      ((r4.dropWhile isPySpace).takeWhile Char.isDigit) ++
        ((r4.dropWhile isPySpace).dropWhile Char.isDigit) :=
    (List.takeWhile_append_dropWhile _ _).symm
  have hd1ne : (r4.dropWhile isPySpace).takeWhile Char.isDigit ≠ [] := by
    rw [← isEmpty_eq_false_iff]
    exact Bool.not_eq_true _ ▸ (by simpa using hd1)
  have hbase : ∀ tail : List Char,
      r4.dropWhile isPySpace =
        ((r4.dropWhile isPySpace).takeWhile Char.isDigit) ++ tail →
      t = tail.reverse ++ ((r4.dropWhile isPySpace).takeWhile Char.isDigit).reverse ++
        (r4.takeWhile isPySpace).reverse ++
        'm' :: ((r2.takeWhile isPySpace).reverse ++ 's' :: 'p' ::
          (t.reverse.takeWhile isPySpace).reverse) := by
    intro tail htail
    conv_lhs => rw [← List.reverse_reverse t, hrt, hr2, hr4, htail]
    simp [List.reverse_append, List.append_assoc]
  split at h
  case h_1 r7 he6 =>
    -- the dot case
    have hsplit : r4.dropWhile isPySpace =
        ((r4.dropWhile isPySpace).takeWhile Char.isDigit) ++ '.' :: r7 := by
      conv_lhs => rw [hr5]
      rw [he6]
    by_cases hd2 : (r7.takeWhile Char.isDigit).isEmpty
    · rw [if_pos hd2] at h
      obtain rfl : ((r4.dropWhile isPySpace).takeWhile Char.isDigit).reverse = num :=
        Option.some.inj h
      refine ⟨Or.inl ⟨by simpa using hd1ne, by rw [all_reverse']; exact all_takeWhile _ _⟩,
        ('.' :: r7).reverse, (r4.takeWhile isPySpace).reverse,
        (r2.takeWhile isPySpace).reverse, (t.reverse.takeWhile isPySpace).reverse,
        ?_, ?_, ?_, ?_⟩
      · have := hbase ('.' :: r7) hsplit
        simpa [List.append_assoc] using this
      · rw [all_reverse']; exact all_takeWhile _ _
      · rw [all_reverse']; exact all_takeWhile _ _
      · rw [all_reverse']; exact all_takeWhile _ _
    · rw [if_neg hd2] at h
      obtain rfl : (r7.takeWhile Char.isDigit).reverse ++ '.' ::
          ((r4.dropWhile isPySpace).takeWhile Char.isDigit).reverse = num :=
        Option.some.inj h
      have hd2ne : r7.takeWhile Char.isDigit ≠ [] := by
        rw [← isEmpty_eq_false_iff]
        exact Bool.not_eq_true _ ▸ (by simpa using hd2)
      refine ⟨Or.inr ⟨(r7.takeWhile Char.isDigit).reverse,
          ((r4.dropWhile isPySpace).takeWhile Char.isDigit).reverse, rfl,
          by simpa using hd2ne, by rw [all_reverse']; exact all_takeWhile _ _,
          by simpa using hd1ne, by rw [all_reverse']; exact all_takeWhile _ _⟩,
        (r7.dropWhile Char.isDigit).reverse, (r4.takeWhile isPySpace).reverse,
        (r2.takeWhile isPySpace).reverse, (t.reverse.takeWhile isPySpace).reverse,
        ?_, ?_, ?_, ?_⟩
      · have hthis := hbase ('.' :: r7) hsplit
        refine hthis.trans ?_
        have hr7 : r7 = (r7.takeWhile Char.isDigit) ++ (r7.dropWhile Char.isDigit) :=
          (List.takeWhile_append_dropWhile _ _).symm
        conv_lhs => rw [hr7]
        simp only [List.reverse_cons, List.reverse_append, List.append_assoc,
          List.cons_append, List.singleton_append, List.nil_append]
      · rw [all_reverse']; exact all_takeWhile _ _
      · rw [all_reverse']; exact all_takeWhile _ _
      · rw [all_reverse']; exact all_takeWhile _ _
  case h_2 hne =>
    obtain rfl : ((r4.dropWhile isPySpace).takeWhile Char.isDigit).reverse = num :=
      Option.some.inj h
    refine ⟨Or.inl ⟨by simpa using hd1ne, by rw [all_reverse']; exact all_takeWhile _ _⟩,
      ((r4.dropWhile isPySpace).dropWhile Char.isDigit).reverse,
      (r4.takeWhile isPySpace).reverse,
      (r2.takeWhile isPySpace).reverse, (t.reverse.takeWhile isPySpace).reverse,
      ?_, ?_, ?_, ?_⟩
    · have := hbase ((r4.dropWhile isPySpace).dropWhile Char.isDigit) hr5
      simpa [List.append_assoc] using this
    · rw [all_reverse']; exact all_takeWhile _ _
    · rw [all_reverse']; exact all_takeWhile _ _
    · rw [all_reverse']; exact all_takeWhile _ _

/-- Completeness of the backward scan: whenever the end-anchored pattern
matches, `matchEndSp` succeeds. -/
theorem matchEndSp_complete {t : List Char} (h : EndSpPattern t) :
    (matchEndSp t).isSome = true := by
  obtain ⟨a, num, w1, w2, w3, ht, hnum, hw1, hw2, hw3⟩ := h
  subst ht
  have hhead : ∃ c nr, num.reverse = c :: nr ∧ c.isDigit = true := by
    rcases hnum with ⟨hne, hall⟩ | ⟨ip, fp, rfl, hip, hipd, hfp, hfpd⟩
    · cases hrn : num.reverse with
      | nil => exact absurd (by simpa using hrn) hne
      | cons c nr =>
        refine ⟨c, nr, rfl, ?_⟩
        have : c ∈ num := by
          rw [← List.mem_reverse, hrn]
          exact List.mem_cons_self _ _
        exact List.all_eq_true.mp hall c this
    · cases hrn : fp.reverse with
      | nil => exact absurd (by simpa using hrn) hfp
      | cons c nr =>
        refine ⟨c, nr ++ '.' :: ip.reverse, ?_, ?_⟩
        · simp [List.reverse_append, hrn]
        · have : c ∈ fp := by
            rw [← List.mem_reverse, hrn]
            exact List.mem_cons_self _ _
          exact List.all_eq_true.mp hfpd c this
  obtain ⟨c, nr, hrn, hcd⟩ := hhead
  unfold matchEndSp
  have hrev : (a ++ num ++ w1 ++ 'm' :: (w2 ++ 's' :: 'p' :: w3)).reverse
      = w3.reverse ++ 'p' :: 's' ::
          (w2.reverse ++ 'm' :: (w1.reverse ++ (num.reverse ++ a.reverse))) := by
    simp [List.reverse_append, List.append_assoc]
  rw [hrev]
  rw [dropWhile_append_of_all _ (by rw [all_reverse']; exact hw3),
    dropWhile_cons_of_neg _ (by decide)]
  split
  case h_2 hno =>
    exact (hno (w2.reverse ++ 'm' :: (w1.reverse ++ (num.reverse ++ a.reverse))) rfl).elim
  case h_1 r2 heq =>
  obtain rfl : r2 = w2.reverse ++ 'm' :: (w1.reverse ++ (num.reverse ++ a.reverse)) := by
    simpa using heq.symm
  rw [dropWhile_append_of_all _ (by rw [all_reverse']; exact hw2),
    dropWhile_cons_of_neg _ (by decide)]
  split
  case h_2 hno =>
    exact (hno (w1.reverse ++ (num.reverse ++ a.reverse)) rfl).elim
  case h_1 r4 heq2 =>
  obtain rfl : r4 = w1.reverse ++ (num.reverse ++ a.reverse) := by
    simpa using heq2.symm
  rw [dropWhile_append_of_all _ (by rw [all_reverse']; exact hw1)]
  rw [hrn, List.cons_append,
    dropWhile_cons_of_neg _ (isDigit_not_pySpace hcd)]
  unfold matchNumberBack
  rw [List.takeWhile_cons, if_pos hcd]
  rw [if_neg (by simp)]
  split
  · split <;> rfl
  · rfl

/-- C7.  The extractor returns a value exactly when the end-anchored pattern
`<number> m sp` matches at the end of the lowercased, comma-stripped
description; the returned value is the matched number divided by 1,000,000
when that number exceeds 1000, and the number itself otherwise. -/
theorem derived_quantity_extraction (d : List Char) :
    ((extract_sp_from_description d).isSome = true ↔ EndSpPattern (normalizeDesc d)) ∧
    (∀ v, extract_sp_from_description d = some v →
      ∃ a num w1 w2 w3,
        normalizeDesc d = a ++ num ++ w1 ++ 'm' :: (w2 ++ 's' :: 'p' :: w3) ∧
        IsNumberLit num ∧
        w1.all isPySpace = true ∧ w2.all isPySpace = true ∧ w3.all isPySpace = true ∧
        v = (if parseNumber num > SANITY_CHECK_THRESHOLD
             then parseNumber num / 1000000 else parseNumber num)) := by
  constructor
  · constructor
    · intro hs
      unfold extract_sp_from_description at hs
      by_cases hde : d.isEmpty
      · rw [if_pos hde] at hs
        simp at hs
      · rw [if_neg hde] at hs
        cases hm : matchEndSp (normalizeDesc d) with
        | none => rw [hm] at hs; simp at hs
        | some num =>
          obtain ⟨hlit, a, w1, w2, w3, heq, h1, h2, h3⟩ := matchEndSp_sound hm
          exact ⟨a, num, w1, w2, w3, heq, hlit, h1, h2, h3⟩
    · intro hp
      have hms := matchEndSp_complete hp
      unfold extract_sp_from_description
      have hde : d.isEmpty = false := by
        rw [isEmpty_eq_false_iff]
        rintro rfl
        obtain ⟨a, num, w1, w2, w3, heq, hnum, _, _, _⟩ := hp
        have : normalizeDesc [] = [] := rfl
        rw [this] at heq
        rcases hnum with ⟨hne, _⟩ | ⟨ip, fp, rfl, hip, _, _, _⟩
        · cases num with
          | nil => exact hne rfl
          | cons c cs => simp at heq
        · cases ip with
          | nil => exact hip rfl
          | cons c cs => simp at heq
      rw [if_neg (by simp [hde])]
      obtain ⟨num, hm⟩ := Option.isSome_iff_exists.mp hms
      rw [hm]
      dsimp only
      split <;> simp
  · intro v hv
    unfold extract_sp_from_description at hv
    by_cases hde : d.isEmpty
    · rw [if_pos hde] at hv
      exact absurd hv (by simp)
    · rw [if_neg hde] at hv
      cases hm : matchEndSp (normalizeDesc d) with
      | none => rw [hm] at hv; exact absurd hv (by simp)
      | some num =>
        rw [hm] at hv
        dsimp only at hv
        obtain ⟨hlit, a, w1, w2, w3, heq, h1, h2, h3⟩ := matchEndSp_sound hm
        refine ⟨a, num, w1, w2, w3, heq, hlit, h1, h2, h3, ?_⟩
        split at hv <;> split <;> simp_all

/-- Witness for C7 at the concrete description `"Pilot 2000000 m sp"`:
the pattern matches, the matched number 2000000 exceeds the sanity
threshold, and the extractor returns 2000000 / 1000000 = 2. -/
theorem derived_quantity_extraction_witness :
    ∃ a num w1 w2 w3,
      normalizeDesc ("Pilot 2000000 m sp".data) =
        a ++ num ++ w1 ++ 'm' :: (w2 ++ 's' :: 'p' :: w3) ∧
      IsNumberLit num ∧
      w1.all isPySpace = true ∧ w2.all isPySpace = true ∧ w3.all isPySpace = true ∧
      (2 : ℚ) = (if parseNumber num > SANITY_CHECK_THRESHOLD
           then parseNumber num / 1000000 else parseNumber num) :=
  (derived_quantity_extraction ("Pilot 2000000 m sp".data)).2 2
    (by with_unfolding_all decide)

/-! ## Delivery dispatch (claim C8)

The dispatch logic is modelled as a function of which backends are
configured and of whether each backend's send would succeed on this
message (the sends themselves are network calls).  The non-empty formatted
message is abstracted away: both scripts only reach this code with a
non-empty `full_message`. -/

inductive Backend where
  | discord
  | telegram
deriving DecidableEq

structure DispatchOutcome where
  attempts : List Backend
  success : Bool
deriving DecidableEq

/-- funpay_scraper_simplified.py lines 428-453 (same structure in
funpay_scraper_local.py lines 574-599): Discord is attempted first when
configured; Telegram is attempted when it is configured and either Discord
is not configured or Discord was attempted and failed
(`discord_attempted_and_failed`); the run's delivery outcome is
`any_notification_platform_succeeded`. -/
def dispatchSimplified (notify_via_discord notify_via_telegram : Bool)
    (discordWouldSucceed telegramWouldSucceed : Bool) : DispatchOutcome :=
  let discordResult :=
    if notify_via_discord then
      if discordWouldSucceed then some true else some false
    else none
  let attempts1 : List Backend := if notify_via_discord then [Backend.discord] else []
  let any1 := discordResult = some true
  let discord_attempted_and_failed := discordResult = some false
  if notify_via_telegram && (!notify_via_discord || discord_attempted_and_failed) then
    { attempts := attempts1 ++ [Backend.telegram]
      success := any1 || telegramWouldSucceed }
  else
    { attempts := attempts1, success := any1 }

/-- funpay_scraper_v3.py lines 484-501: `if notify_via_discord: ...
elif notify_via_telegram: ...` — the backend is chosen by configuration
alone; when Discord is configured, Telegram is marked skipped and is never
attempted even if the Discord send fails. -/
def dispatchV3 (notify_via_discord notify_via_telegram : Bool)
    (discordWouldSucceed telegramWouldSucceed : Bool) : DispatchOutcome :=
  if notify_via_discord then
    { attempts := [Backend.discord], success := discordWouldSucceed }
  else if notify_via_telegram then
    { attempts := [Backend.telegram], success := telegramWouldSucceed }
  else
    { attempts := [], success := false }

/-- C8 (amended).  With both backends configured, the simplified/local
dispatcher attempts Discord first, attempts Telegram exactly when Discord
failed, stops at the first success, and reports success exactly when some
backend delivered.  The v3 dispatcher instead selects by configuration
only: with Discord configured it attempts only Discord and its outcome is
Discord's result, never falling back to Telegram on failure. -/
theorem dispatcher_fallback_order :
    ∀ d t : Bool,
      dispatchSimplified true true d t =
        { attempts := if d then [Backend.discord] else [Backend.discord, Backend.telegram]
          success := d || t } ∧
      dispatchV3 true true d t = { attempts := [Backend.discord], success := d } := by
  decide

/-- Counterexample to C8 as stated: with both backends configured, Discord
failing and Telegram able to deliver, the v3 dispatcher never attempts
Telegram and reports overall failure — the claim requires the fallback to
be attempted and the outcome to be success. -/
theorem dispatcher_fallback_order_counterexample :
    (dispatchV3 true true false true).attempts = [Backend.discord] ∧
    (dispatchV3 true true false true).success = false ∧
    (dispatchSimplified true true false true).attempts = [Backend.discord, Backend.telegram] ∧
    (dispatchSimplified true true false true).success = true := by
  decide

/-! ## Per-backend message-size enforcement (claim C9)

Telegram (`send_telegram_notification`, funpay_scraper_simplified.py lines
225-237, identical in the other variants) enforces its limit on the UTF-8
byte encoding of the message: messages are therefore modelled as byte lists
`List Nat` there.  Discord (`send_discord_notification`) splits on
character counts: messages are `List Char` there. -/

def TELEGRAM_MAX_MSG_LENGTH : Nat := 4096

def utf8ContByte (b : Nat) : Bool := 0x80 ≤ b && b ≤ 0xBF

/-- Length (1-4) of the valid UTF-8 sequence starting at the head of `l`,
or 0 when the head does not start one (invalid lead byte, truncated or
ill-formed sequence; overlong encodings, surrogates and values beyond
U+10FFFF are invalid, as in CPython's decoder). -/
def utf8SeqLen (l : List Nat) : Nat :=
  match l with
  | [] => 0
  | b :: rest =>
    if b ≤ 0x7F then 1
    else if 0xC2 ≤ b && b ≤ 0xDF then
      match rest with
      | c1 :: _ => if utf8ContByte c1 then 2 else 0
      | [] => 0
    else if b = 0xE0 then
      match rest with
      | c1 :: c2 :: _ => if (0xA0 ≤ c1 && c1 ≤ 0xBF) && utf8ContByte c2 then 3 else 0
      | _ => 0
    else if (0xE1 ≤ b && b ≤ 0xEC) || b = 0xEE || b = 0xEF then
      match rest with
      | c1 :: c2 :: _ => if utf8ContByte c1 && utf8ContByte c2 then 3 else 0
      | _ => 0
    else if b = 0xED then
      match rest with
      | c1 :: c2 :: _ => if (0x80 ≤ c1 && c1 ≤ 0x9F) && utf8ContByte c2 then 3 else 0
      | _ => 0
    else if b = 0xF0 then
      match rest with
      | c1 :: c2 :: c3 :: _ =>
        if ((0x90 ≤ c1 && c1 ≤ 0xBF) && utf8ContByte c2) && utf8ContByte c3 then 4 else 0
      | _ => 0
    else if 0xF1 ≤ b && b ≤ 0xF3 then
      match rest with
      | c1 :: c2 :: c3 :: _ =>
        if (utf8ContByte c1 && utf8ContByte c2) && utf8ContByte c3 then 4 else 0
      | _ => 0
    else if b = 0xF4 then
      match rest with
      | c1 :: c2 :: c3 :: _ =>
        if ((0x80 ≤ c1 && c1 ≤ 0x8F) && utf8ContByte c2) && utf8ContByte c3 then 4 else 0
      | _ => 0
    else 0

/-- `bytes.decode('utf-8', 'ignore')` followed by `.encode('utf-8')`:
valid sequences are kept byte for byte (UTF-8 round-trips), invalid bytes
are dropped.  (CPython's error handler may skip more than one byte of an
ill-formed sequence at once; that only affects inputs that are not prefixes
of valid UTF-8, which the script never produces, and cannot increase the
length.) -/
def utf8Clean (l : List Nat) : List Nat :=
  match l with
  | [] => []
  | b :: t =>
    let k := utf8SeqLen (b :: t)
    if hk : k = 0 then utf8Clean t
    else (b :: t).take k ++ utf8Clean ((b :: t).drop k)
termination_by l.length
decreasing_by
  · simp
  · simp only [List.length_drop, List.length_cons]
    omega

theorem utf8Clean_length_le : ∀ (n : Nat) (l : List Nat), l.length ≤ n →
    (utf8Clean l).length ≤ l.length := by
  intro n
  induction n with
  | zero =>
    intro l hl
    have : l = [] := List.length_eq_zero.mp (Nat.le_zero.mp hl)
    subst this
    simp [utf8Clean]
  | succ n ih =>
    intro l hl
    match l with
    | [] => simp [utf8Clean]
    | b :: t =>
      rw [utf8Clean]
      by_cases hk : utf8SeqLen (b :: t) = 0
      · simp only [hk, dif_pos]
        have := ih t (by simpa using Nat.lt_succ_iff.mp (Nat.lt_of_lt_of_le (Nat.lt_succ_self _) hl))
        calc (utf8Clean t).length ≤ t.length := ih t (by simp at hl; omega)
          _ ≤ (b :: t).length := by simp
      · rw [dif_neg hk]
        rw [List.length_append, List.length_take]
        have hrec := ih ((b :: t).drop (utf8SeqLen (b :: t)))
          (by simp only [List.length_drop, List.length_cons]; simp at hl; omega)
        rw [List.length_drop] at hrec
        simp only [List.length_cons] at hrec ⊢
        omega

/-- The truncation marker `"\n... (truncated)"` as UTF-8 bytes (all
ASCII). -/
def truncationMarker : List Nat := "\n... (truncated)".data.map Char.toNat

/-- Lines 233-237: if the encoded message exceeds
`TELEGRAM_MAX_MSG_LENGTH` bytes, keep the first `4096 - 30` bytes, decode
ignoring errors, re-encode, and append the marker; otherwise send as is.
One single message is posted either way. -/
def telegramMessageBytes (doc : List Nat) : List Nat :=
  if doc.length > TELEGRAM_MAX_MSG_LENGTH then
    utf8Clean (doc.take (TELEGRAM_MAX_MSG_LENGTH - 30)) ++ truncationMarker
  else doc

/-! ### Discord chunking -/

def DISCORD_MAX_MSG_LENGTH : Nat := 2000

/-- `"\n... (Continued in next part)"`. -/
def contMarker : List Char := "\n... (Continued in next part)".data

/-- `f"(Part {message_index}) ...\n"`. -/
def partIndicator (message_index : Nat) : List Char :=
  ("(Part " ++ toString message_index ++ ") ...\n").data

/-- Python `str.lstrip()`. -/
def lstrip (l : List Char) : List Char := l.dropWhile isPySpace

theorem length_dropWhile_le (p : Char → Bool) (l : List Char) :
    (List.dropWhile p l).length ≤ l.length := by
  induction l with
  | nil => simp
  | cons a t ih =>
    rw [List.dropWhile_cons]
    split_ifs
    · exact Nat.le_succ_of_le ih
    · exact Nat.le_refl _

/-- `remaining_message.rfind('\n', 0, bound)`: the largest index `i < bound`
with `l[i] = '\n'`, or `none` (Python returns -1). -/
def rfindNewlineAux : List Char → Nat → Option Nat → Option Nat
  | [], _, acc => acc
  | c :: t, i, acc => rfindNewlineAux t (i + 1) (if c = '\n' then some i else acc)

def rfindNewline (l : List Char) (bound : Nat) : Option Nat :=
  rfindNewlineAux (l.take bound) 0 none

/-- Python `l[:n]` for a possibly negative `n`. -/
def pySliceTo (l : List Char) (n : Int) : List Char :=
  if 0 ≤ n then l.take n.toNat else l.take ((l.length : Int) + n).toNat

/-- The chunk extraction shared by both Discord senders
(funpay_scraper_v3.py lines 326-336, funpay_scraper_simplified.py lines
280-290): the whole remainder when it fits, otherwise split at the last
newline before the limit (hard split at the limit when there is none), and
`lstrip` the remainder. -/
def splitChunk (remaining : List Char) : List Char × List Char :=
  if remaining.length ≤ DISCORD_MAX_MSG_LENGTH then (remaining, [])
  else
    match rfindNewline remaining DISCORD_MAX_MSG_LENGTH with
    | some split_point => (remaining.take split_point, lstrip (remaining.drop split_point))
    | none =>
      (remaining.take DISCORD_MAX_MSG_LENGTH, lstrip (remaining.drop DISCORD_MAX_MSG_LENGTH))

theorem rfindNewlineAux_spec : ∀ (l : List Char) (st : Nat) (acc : Option Nat) (i : Nat),
    rfindNewlineAux l st acc = some i →
    acc = some i ∨ (st ≤ i ∧ l.get? (i - st) = some '\n') := by
  intro l
  induction l with
  | nil =>
    intro st acc i h
    exact Or.inl h
  | cons c t ih =>
    intro st acc i h
    rw [rfindNewlineAux] at h
    rcases ih (st + 1) _ i h with hacc | ⟨hle, hget⟩
    · by_cases hc : c = '\n'
      · rw [if_pos hc] at hacc
        obtain rfl : st = i := Option.some.inj hacc
        right
        refine ⟨Nat.le_refl _, ?_⟩
        simp [hc]
      · rw [if_neg hc] at hacc
        exact Or.inl hacc
    · right
      refine ⟨Nat.le_of_succ_le hle, ?_⟩
      have hpos : 1 ≤ i - st := by omega
      have : i - st = (i - (st + 1)) + 1 := by omega
      rw [this]
      simpa using hget

theorem rfindNewline_spec {l : List Char} {bound i : Nat}
    (h : rfindNewline l bound = some i) : i < bound ∧ l.get? i = some '\n' := by
  rcases rfindNewlineAux_spec _ _ _ _ h with hacc | ⟨_, hget⟩
  · exact absurd hacc (by simp)
  · simp only [Nat.sub_zero] at hget
    have hilen : i < (l.take bound).length := by
      by_contra hge
      rw [List.get?_eq_none.mpr (Nat.le_of_not_lt hge)] at hget
      exact Option.noConfusion hget
    rw [List.length_take] at hilen
    refine ⟨lt_of_lt_of_le hilen (min_le_left _ _), ?_⟩
    rw [List.get?_take (lt_of_lt_of_le hilen (min_le_left _ _))] at hget
    exact hget

theorem splitChunk_rest_lt {remaining : List Char} (h : remaining ≠ []) :
    (splitChunk remaining).2.length < remaining.length := by
  unfold splitChunk
  by_cases hle : remaining.length ≤ DISCORD_MAX_MSG_LENGTH
  · rw [if_pos hle]
    simpa [List.length_pos] using h
  · rw [if_neg hle]
    have hlen : DISCORD_MAX_MSG_LENGTH < remaining.length := Nat.lt_of_not_le hle
    cases hrf : rfindNewline remaining DISCORD_MAX_MSG_LENGTH with
    | some i =>
      obtain ⟨hib, hget⟩ := rfindNewline_spec hrf
      have hil : i < remaining.length := by
        unfold DISCORD_MAX_MSG_LENGTH at hib hlen
        omega
      have hgi : remaining.get ⟨i, hil⟩ = '\n' := by
        have := List.get?_eq_get hil
        rw [this] at hget
        exact Option.some.inj hget
      have hd : remaining.drop i = '\n' :: remaining.drop (i + 1) := by
        rw [List.drop_eq_get_cons hil, hgi]
      simp only [hd, lstrip, List.dropWhile]
      have hsp : isPySpace '\n' = true := by decide
      rw [hsp]
      calc (List.dropWhile isPySpace (remaining.drop (i + 1))).length
          ≤ (remaining.drop (i + 1)).length := length_dropWhile_le _ _
        _ < remaining.length := by rw [List.length_drop]; omega
    | none =>
      simp only [lstrip]
      calc (List.dropWhile isPySpace (remaining.drop DISCORD_MAX_MSG_LENGTH)).length
          ≤ (remaining.drop DISCORD_MAX_MSG_LENGTH).length := length_dropWhile_le _ _
        _ < remaining.length := by
            rw [List.length_drop]
            unfold DISCORD_MAX_MSG_LENGTH at hlen ⊢
            omega

/-- The sequence of chunk payloads posted by the v3 Discord sender
(funpay_scraper_v3.py lines 323-343), in order: part indicator prepended
from the second chunk on, continuation marker appended whenever more
remains.  No length check is performed after the indicators are added. -/
def discordChunksV3Go (message_index : Nat) (remaining : List Char) : List (List Char) :=
  if h : remaining = [] then []
  else
    let sc := splitChunk remaining
    let chunk1 := if message_index > 1 then partIndicator message_index ++ sc.1 else sc.1
    let final_chunk := if sc.2.length > 0 then chunk1 ++ contMarker else chunk1
    final_chunk :: discordChunksV3Go (message_index + 1) sc.2
termination_by remaining.length
decreasing_by exact splitChunk_rest_lt h

def discordChunksV3 (message_text : List Char) : List (List Char) :=
  discordChunksV3Go 1 message_text

/-- The chunk assembled by one iteration of the simplified Discord sender
(funpay_scraper_simplified.py lines 292-313): the chunk body from
`splitChunk` is proactively truncated so body + indicators fit the limit,
the part indicator (from the second chunk on) and the continuation marker
(when more remains) are attached, and the assembled chunk is hard-truncated
to `DISCORD_MAX_MSG_LENGTH - 20` characters plus a 20-character marker as a
failsafe. -/
def simpFinalChunk (message_index : Nat) (remaining : List Char) : List Char :=
  let sc := splitChunk remaining
  let part_ind := if message_index > 1 then partIndicator message_index else []
  let continuation_indicator := if sc.2.length > 0 then contMarker else []
  let reserved_space := part_ind.length + continuation_indicator.length
  let chunk_to_send :=
    if sc.1.length + reserved_space > DISCORD_MAX_MSG_LENGTH then
      pySliceTo sc.1 ((DISCORD_MAX_MSG_LENGTH : Int) - (reserved_space : Int) - 3) ++ "...".data
    else sc.1
  let assembled := part_ind ++ chunk_to_send ++ continuation_indicator
  if assembled.length > DISCORD_MAX_MSG_LENGTH then
    assembled.take (DISCORD_MAX_MSG_LENGTH - 20) ++ "\n...(hard truncated)".data
  else assembled

/-- The sequence of chunk payloads posted by the simplified Discord sender
(lines 276-319): chunks that strip to empty are skipped (message_index
still advances). -/
def discordChunksSimpGo (message_index : Nat) (remaining : List Char) : List (List Char) :=
  if h : remaining = [] then []
  else
    if (pyStrip (simpFinalChunk message_index remaining)).isEmpty then
      discordChunksSimpGo (message_index + 1) (splitChunk remaining).2
    else
      simpFinalChunk message_index remaining ::
        discordChunksSimpGo (message_index + 1) (splitChunk remaining).2
termination_by remaining.length
decreasing_by
  all_goals exact splitChunk_rest_lt h

/-- Line 272: the sender starts from `message_text.strip()`. -/
def discordChunksSimplified (message_text : List Char) : List (List Char) :=
  discordChunksSimpGo 1 (pyStrip message_text)

theorem simpFinalChunk_length_le (idx : Nat) (rem : List Char) :
    (simpFinalChunk idx rem).length ≤ DISCORD_MAX_MSG_LENGTH := by
  unfold simpFinalChunk
  dsimp only
  by_cases hlong :
      ((if idx > 1 then partIndicator idx else []) ++
        (if (splitChunk rem).1.length +
            ((if idx > 1 then partIndicator idx else []).length +
             (if (splitChunk rem).2.length > 0 then contMarker else []).length) >
            DISCORD_MAX_MSG_LENGTH then
          pySliceTo (splitChunk rem).1 ((DISCORD_MAX_MSG_LENGTH : Int) -
            (((if idx > 1 then partIndicator idx else []).length +
              (if (splitChunk rem).2.length > 0 then contMarker else []).length : Nat) : Int) -
            3) ++ "...".data
        else (splitChunk rem).1) ++
        (if (splitChunk rem).2.length > 0 then contMarker else [])).length >
      DISCORD_MAX_MSG_LENGTH
  · rw [if_pos hlong]
    rw [List.length_append, List.length_take]
    have h20 : ("\n...(hard truncated)".data).length = 20 := by decide
    rw [h20]
    unfold DISCORD_MAX_MSG_LENGTH
    omega
  · rw [if_neg hlong]
    exact Nat.le_of_not_lt hlong

theorem discordChunksSimpGo_nil (idx : Nat) : discordChunksSimpGo idx [] = [] := by
  unfold discordChunksSimpGo
  rfl

theorem discordChunksSimpGo_ne (idx : Nat) (rem : List Char) (h : rem ≠ []) :
    discordChunksSimpGo idx rem =
      if (pyStrip (simpFinalChunk idx rem)).isEmpty then
        discordChunksSimpGo (idx + 1) (splitChunk rem).2
      else
        simpFinalChunk idx rem :: discordChunksSimpGo (idx + 1) (splitChunk rem).2 := by
  conv_lhs => unfold discordChunksSimpGo
  rw [dif_neg h]

theorem discordChunksSimpGo_bound : ∀ (n : Nat) (idx : Nat) (rem : List Char),
    rem.length ≤ n → ∀ c ∈ discordChunksSimpGo idx rem,
    c.length ≤ DISCORD_MAX_MSG_LENGTH := by
  intro n
  induction n with
  | zero =>
    intro idx rem hrem c hc
    have hn : rem = [] := List.length_eq_zero.mp (Nat.le_zero.mp hrem)
    subst hn
    rw [discordChunksSimpGo_nil] at hc
    exact absurd hc (List.not_mem_nil c)
  | succ n ih =>
    intro idx rem hrem c hc
    by_cases hnil : rem = []
    · subst hnil
      rw [discordChunksSimpGo_nil] at hc
      exact absurd hc (List.not_mem_nil c)
    · rw [discordChunksSimpGo_ne idx rem hnil] at hc
      have hrest : (splitChunk rem).2.length ≤ n :=
        Nat.lt_succ_iff.mp (Nat.lt_of_lt_of_le (splitChunk_rest_lt hnil) hrem)
      by_cases hskip : (pyStrip (simpFinalChunk idx rem)).isEmpty
      · rw [if_pos hskip] at hc
        exact ih (idx + 1) (splitChunk rem).2 hrest c hc
      · rw [if_neg hskip] at hc
        rcases List.mem_cons.mp hc with rfl | hc'
        · exact simpFinalChunk_length_le idx rem
        · exact ih (idx + 1) (splitChunk rem).2 hrest c hc'

theorem discordChunksV3Go_cons (idx : Nat) (rem : List Char) (h : rem ≠ []) :
    discordChunksV3Go idx rem =
      (let sc := splitChunk rem
       let chunk1 := if idx > 1 then partIndicator idx ++ sc.1 else sc.1
       let final_chunk := if sc.2.length > 0 then chunk1 ++ contMarker else chunk1
       final_chunk :: discordChunksV3Go (idx + 1) sc.2) := by
  rw [discordChunksV3Go, dif_neg h]

theorem rfindNewlineAux_of_no_newline : ∀ (l : List Char) (st : Nat),
    (∀ c ∈ l, ¬ c = '\n') → rfindNewlineAux l st none = none := by
  intro l
  induction l with
  | nil =>
    intro st _
    rfl
  | cons c t ih =>
    intro st hno
    rw [rfindNewlineAux, if_neg (hno c (List.mem_cons_self _ _))]
    exact ih (st + 1) (fun d hd => hno d (List.mem_cons_of_mem _ hd))

/-- Claim C9 (amended): the simplified Discord sender keeps every chunk
within DISCORD_MAX_MSG_LENGTH characters via proactive truncation and the
hard-truncation failsafe, and the Telegram sender posts a single message of
at most TELEGRAM_MAX_MSG_LENGTH bytes; the v3 Discord sender, however,
does not re-check the limit after prepending the part indicator and
appending the continuation marker (see the counterexample). -/
theorem message_size_enforcement :
    (∀ msg : List Char, (discordChunksSimplified msg).all
      (fun c => c.length ≤ DISCORD_MAX_MSG_LENGTH) = true) ∧
    (∀ doc : List Nat, (telegramMessageBytes doc).length ≤ TELEGRAM_MAX_MSG_LENGTH) := by
  constructor
  · intro msg
    rw [List.all_eq_true]
    intro c hc
    have hb := discordChunksSimpGo_bound (pyStrip msg).length 1 (pyStrip msg)
      (Nat.le_refl _) c hc
    exact decide_eq_true hb
  · intro doc
    unfold telegramMessageBytes
    by_cases hlong : doc.length > TELEGRAM_MAX_MSG_LENGTH
    · rw [if_pos hlong]
      rw [List.length_append]
      have h1 : (utf8Clean (doc.take (TELEGRAM_MAX_MSG_LENGTH - 30))).length ≤
          TELEGRAM_MAX_MSG_LENGTH - 30 := by
        calc (utf8Clean (doc.take (TELEGRAM_MAX_MSG_LENGTH - 30))).length
            ≤ (doc.take (TELEGRAM_MAX_MSG_LENGTH - 30)).length :=
              utf8Clean_length_le _ _ (Nat.le_refl _)
          _ ≤ TELEGRAM_MAX_MSG_LENGTH - 30 := by
              rw [List.length_take]; exact min_le_left _ _
      have h2 : truncationMarker.length = 16 := by decide
      unfold TELEGRAM_MAX_MSG_LENGTH at h1 ⊢
      omega
    · rw [if_neg hlong]
      exact Nat.le_of_not_lt hlong

/-- On a 2001-character message with no newline, the v3 Discord sender's
first chunk is the 2000-character hard split plus the 29-character
continuation marker - 2029 characters, over the 2000-character limit. -/
theorem message_size_enforcement_counterexample :
    2000 < ((discordChunksV3 (List.replicate 2001 'a')).headD []).length := by
  have hnz : (List.replicate 2001 'a' : List Char) ≠ [] := by
    intro h
    have hlen := congrArg List.length h
    rw [List.length_replicate, List.length_nil] at hlen
    exact absurd hlen (by decide)
  have hrf : rfindNewline (List.replicate 2001 'a') DISCORD_MAX_MSG_LENGTH = none := by
    unfold rfindNewline
    apply rfindNewlineAux_of_no_newline
    intro c hc
    have hca : c = 'a' := List.eq_of_mem_replicate (List.mem_of_mem_take hc)
    subst hca
    decide
  have hsplit : splitChunk (List.replicate 2001 'a') =
      ((List.replicate 2001 'a').take DISCORD_MAX_MSG_LENGTH,
       lstrip ((List.replicate 2001 'a').drop DISCORD_MAX_MSG_LENGTH)) := by
    unfold splitChunk
    rw [if_neg (by rw [List.length_replicate]; decide), hrf]
  have hdrop : (List.replicate 2001 'a' : List Char).drop DISCORD_MAX_MSG_LENGTH =
      List.replicate 1 'a' := by
    unfold DISCORD_MAX_MSG_LENGTH
    rw [List.drop_replicate]
  have hrest : lstrip ((List.replicate 2001 'a' : List Char).drop DISCORD_MAX_MSG_LENGTH) =
      ['a'] := by
    rw [hdrop]
    decide
  rw [discordChunksV3, discordChunksV3Go_cons 1 _ hnz]
  simp only [hsplit, hrest]
  rw [if_pos (by decide : (['a'] : List Char).length > 0)]
  rw [if_neg (by decide : ¬ (1 : Nat) > 1)]
  rw [List.headD_cons, List.length_append, List.length_take, List.length_replicate]
  have h29 : contMarker.length = 29 := by decide
  rw [h29]
  decide

/-! ## Numeric offer ids and state saving (claim C10)

`extract_offer_id_from_href` (funpay_scraper_local.py lines 117-127) keeps
an id only when `offer_id.isdigit()` holds, the scrape loop (lines 251-254)
keys the scraped dict by exactly the accepted ids, and `save_offer_state`
(lines 105-114) sorts entries by `int(key)`.  `urlparse`/`parse_qs` are
modelled by their documented splitting: the fragment starts at the first
`#`, the query is what follows the first `?` before the fragment, fields
are separated by `&`, and a field without `=` or with an empty value is
dropped (`keep_blank_values` is False).  Percent-decoding and the
`+`-to-space translation of `parse_qs` are omitted (they change which hrefs
yield which ids, not which id strings can be accepted).  Crucially,
Python's `str.isdigit` is wider than the decimal digits `int()` accepts: it
also returns True for every character with Unicode `Numeric_Type=Digit`,
such as superscript and subscript digits, on which `int()` raises
`ValueError`; `pyIsDigit` models `isdigit` with the ASCII digits plus that
super/subscript block (a subset of CPython's - further accepted characters
only widen the gap between the extractor's gate and `int()`), while `pyInt`
models `int()` with ASCII digits (the non-ASCII `Nd` digits `int()` also
accepts are omitted, which only matters for keys neither source of this
repo can produce from ASCII pages).  Strings are `List Char` so the
character-level scan is explicit. -/

/-- Python `str.isdigit`, per character: decimal digits plus the
`Numeric_Type=Digit` characters (modelled here by the Latin-1 and
super/subscript digit blocks). -/
def pyIsDigit (c : Char) : Bool :=
  c.isDigit ||
    (['⁰', '¹', '²', '³', '⁴', '⁵', '⁶', '⁷', '⁸', '⁹',
      '₀', '₁', '₂', '₃', '₄', '₅', '₆', '₇', '₈', '₉'].contains c)

def splitOnChar (sep : Char) : List Char → List (List Char)
  | [] => [[]]
  | c :: t =>
    if c = sep then [] :: splitOnChar sep t
    else
      match splitOnChar sep t with
      | [] => [[c]]
      | h :: r => (c :: h) :: r

def takeUntilChar (sep : Char) (l : List Char) : List Char :=
  l.takeWhile (fun c => c != sep)

def afterFirstChar (sep : Char) (l : List Char) : Option (List Char) :=
  match l.dropWhile (fun c => c != sep) with
  | [] => none
  | _ :: t => some t

/-- `urlparse(href).query`: strip the fragment (first `#` on), then take
what follows the first `?`; empty when there is no `?`. -/
def queryOf (href : List Char) : List Char :=
  match afterFirstChar '?' (takeUntilChar '#' href) with
  | some q => q
  | none => []

/-- One `name=value` field of `parse_qs`: `none` (dropped) when the field
has no `=` or an empty value. -/
def splitKV (field : List Char) : Option (List Char × List Char) :=
  match afterFirstChar '=' field with
  | none => none
  | some v => if v.isEmpty then none else some (takeUntilChar '=' field, v)

/-- `parse_qs(parsed_url.query).get('id', [None])[0]`: the first non-blank
value bound to the name `id`, or `none`. -/
def qsIdValue (q : List Char) : Option (List Char) :=
  (((splitOnChar '&' q).filterMap splitKV).filter
    (fun p => p.1 = "id".data)).head?.map (fun p => p.2)

/-- Lines 117-127: `None` for a falsy (empty) href; otherwise the `id`
query parameter when it is present, non-empty and
`if offer_id and offer_id.isdigit()` holds, else `None`. -/
def extract_offer_id_from_href (href : List Char) : Option (List Char) :=
  if href.isEmpty then none
  else
    match qsIdValue (queryOf href) with
    | some offer_id =>
      if !offer_id.isEmpty && offer_id.all pyIsDigit then some offer_id else none
    | none => none

/-- Lines 251-254: the ids under which scraped offers are keyed are exactly
the accepted extractor outputs (`if not offer_id: continue` skips the
rest). -/
def scrapedIds (hrefs : List (List Char)) : List (List Char) :=
  hrefs.filterMap extract_offer_id_from_href

/-- Python `int(s)` on a string: optional surrounding whitespace, optional
sign, then decimal digits (underscore grouping and non-ASCII digits
omitted, see above); `none` models `ValueError`. -/
def pyInt (s : List Char) : Option Int :=
  match pyStrip s with
  | [] => none
  | c :: d =>
    if c = '-' then
      if !d.isEmpty && d.all Char.isDigit then some (-(digitsToNat d : Int)) else none
    else if c = '+' then
      if !d.isEmpty && d.all Char.isDigit then some ((digitsToNat d : Int)) else none
    else if (c :: d).all Char.isDigit then some ((digitsToNat (c :: d) : Int)) else none

def saveKey (p : String × Entry) : Int := (pyInt p.1.data).getD 0

/-- `save_offer_state` (lines 105-114):
`dict(sorted(current_state_dict.items(), key=lambda item: int(item[0])))`.
`sorted` computes `int(key)` for every entry up front — raising
`ValueError`, caught by the `except` which only logs and leaves the file
unwritten, when some key is not an integer literal — then sorts stably by
that key; `.ok` carries the entry list in file order. -/
def save_offer_state (st : List (String × Entry)) : Except Unit (List (String × Entry)) :=
  if st.all (fun p => (pyInt p.1.data).isSome) then
    .ok (st.insertionSort (fun a b => saveKey a ≤ saveKey b))
  else .error ()

theorem extract_offer_id_digits {href v : List Char}
    (h : extract_offer_id_from_href href = some v) :
    v ≠ [] ∧ v.all pyIsDigit = true := by
  unfold extract_offer_id_from_href at h
  by_cases hn : href.isEmpty
  · rw [if_pos hn] at h
    exact Option.noConfusion h
  · rw [if_neg hn] at h
    cases hq : qsIdValue (queryOf href) with
    | none =>
      rw [hq] at h
      exact Option.noConfusion h
    | some v0 =>
      rw [hq] at h
      dsimp only at h
      by_cases hc : (!v0.isEmpty && v0.all pyIsDigit) = true
      · rw [if_pos hc] at h
        obtain rfl : v0 = v := Option.some.inj h
        rw [Bool.and_eq_true] at hc
        obtain ⟨he, hd⟩ := hc
        refine ⟨?_, hd⟩
        intro hnil
        rw [hnil] at he
        exact absurd he (by decide)
      · rw [if_neg hc] at h
        exact Option.noConfusion h

theorem pyStrip_of_no_space (s : List Char) (h : ∀ c ∈ s, isPySpace c = false) :
    pyStrip s = s := by
  unfold pyStrip
  have h1 : s.dropWhile isPySpace = s := by
    cases s with
    | nil => rfl
    | cons c t =>
      rw [List.dropWhile_cons, h c (List.mem_cons_self _ _)]
      simp
  rw [h1]
  have h2 : s.reverse.dropWhile isPySpace = s.reverse := by
    cases hr : s.reverse with
    | nil => rfl
    | cons c t =>
      have hc : c ∈ s := by
        rw [← List.mem_reverse, hr]
        exact List.mem_cons_self _ _
      rw [List.dropWhile_cons, h c hc]
      simp
  rw [h2, List.reverse_reverse]

theorem pyInt_of_digits {s : List Char} (hne : s ≠ []) (hd : s.all Char.isDigit = true) :
    pyInt s = some ((digitsToNat s : Nat) : Int) := by
  unfold pyInt
  have hns : ∀ c ∈ s, isPySpace c = false := fun c hc =>
    isDigit_not_pySpace (List.all_eq_true.mp hd c hc)
  rw [pyStrip_of_no_space s hns]
  cases s with
  | nil => exact absurd rfl hne
  | cons c t =>
    have hcd : c.isDigit = true := List.all_eq_true.mp hd c (List.mem_cons_self _ _)
    have hm : c ≠ '-' := by
      intro hcc
      rw [hcc] at hcd
      exact absurd hcd (by decide)
    have hp : c ≠ '+' := by
      intro hcc
      rw [hcc] at hcd
      exact absurd hcd (by decide)
    dsimp only
    rw [if_neg hm, if_neg hp, if_pos hd]

/-- Claim C10 (amended): every id the extractor accepts (hence every key
the scrape loop uses) is non-empty and passes Python's `isdigit` test, and
on any snapshot whose keys are all non-empty strings of actual decimal
(ASCII) digits `save_offer_state` succeeds, writing a permutation of the
entries ordered by ascending integer value of the key.  The unqualified
claim - that the `isdigit` gate yields only decimal digits, so every
scraped snapshot saves successfully - fails: `isdigit` also accepts
superscript digits, which `int()` rejects (see the counterexample). -/
theorem numeric_offer_id_invariant :
    (∀ href v : List Char, extract_offer_id_from_href href = some v →
      v ≠ [] ∧ v.all pyIsDigit = true) ∧
    (∀ hrefs : List (List Char),
      (scrapedIds hrefs).all (fun v => !v.isEmpty && v.all pyIsDigit) = true) ∧
    (∀ st : List (String × Entry),
      st.all (fun p => !p.1.data.isEmpty && p.1.data.all Char.isDigit) = true →
      ∃ l, save_offer_state st = Except.ok l ∧ l.Perm st ∧
        l.Pairwise (fun a b => saveKey a ≤ saveKey b)) := by
  refine ⟨fun href v h => extract_offer_id_digits h, ?_, ?_⟩
  · intro hrefs
    rw [List.all_eq_true]
    intro v hv
    rcases List.mem_filterMap.mp hv with ⟨href, _, hex⟩
    obtain ⟨hne, hdg⟩ := extract_offer_id_digits hex
    rw [Bool.and_eq_true]
    refine ⟨?_, hdg⟩
    cases v with
    | nil => exact absurd rfl hne
    | cons c t => rfl
  · intro st hall
    have hsome : st.all (fun p => (pyInt p.1.data).isSome) = true := by
      rw [List.all_eq_true]
      intro p hp
      have hpp := List.all_eq_true.mp hall p hp
      rw [Bool.and_eq_true] at hpp
      obtain ⟨he, hdg⟩ := hpp
      have hne : p.1.data ≠ [] := by
        intro h0
        rw [h0] at he
        exact absurd he (by decide)
      rw [pyInt_of_digits hne hdg]
      rfl
    unfold save_offer_state
    rw [if_pos hsome]
    refine ⟨_, rfl, List.perm_insertionSort _ st, ?_⟩
    haveI ht : IsTotal (String × Entry) (fun a b => saveKey a ≤ saveKey b) :=
      ⟨fun a b => Int.le_total _ _⟩
    haveI htr : IsTrans (String × Entry) (fun a b => saveKey a ≤ saveKey b) :=
      ⟨fun a b c hab hbc => le_trans hab hbc⟩
    exact List.sorted_insertionSort _ st

/-- An entry keyed by the superscript-two id accepted by the extractor. -/
def supEntry : Entry :=
  { id := "²"
    description := ""
    seller := ""
    price_usd := some 1
    price_text := ""
    sp_million := none
    href := ""
    last_seen_active := none
    notified_as_removed_at := none }

/-- The literal claim fails on CPython semantics: from the href `?id=²` the
extractor accepts the id `²` (`'²'.isdigit()` is True), that id is not a
decimal-digit string, and saving a snapshot keyed by it makes `int(key)`
raise `ValueError`, so the sorted state is never written. -/
theorem numeric_offer_id_invariant_counterexample :
    extract_offer_id_from_href "?id=²".data = some ['²'] ∧
    (['²'].all Char.isDigit) = false ∧
    save_offer_state [("²", supEntry)] = Except.error () := by
  refine ⟨by decide, by decide, ?_⟩
  with_unfolding_all decide

end Watchdog
